import Mathlib

/-!
Verification development for the ELF64 symbolization core.

The definitions below are a shallow embedding of the repository sources
`src/elf.rs` and `src/symbolize/mod.rs`.  Machine integers are modelled as
`Nat` (the code performs no arithmetic that can overflow on the values it
manipulates: section counts, byte offsets and 64-bit symbol values are used
only for comparisons and bounded indexing).  The backing file is a byte list;
the interior-mutable cache object of `Elf64Parser` becomes an explicit state
record threaded through every operation.  A Rust panic (vector index out of
range, `Option::unwrap` on `None`, a slice read running past the end) is
modelled by the `Out.crash` outcome; `Result::Err(e)` becomes `Out.err`.
-/

set_option maxRecDepth 10000

namespace Blaze

/-- Error kinds of `std::io::ErrorKind` used by the sources.  `ioError`
collects the kinds produced by the raw file operations themselves
(`UnexpectedEof` and friends). -/
inductive ErrKind where
  | notFound
  | invalidInput
  | invalidData
  | ioError
deriving DecidableEq

/-- The ELF64 file header, `Elf64_Ehdr` in `src/elf.rs`. -/
structure Elf64_Ehdr where
  e_ident : List Nat
  e_type : Nat
  e_machine : Nat
  e_version : Nat
  e_entry : Nat
  e_phoff : Nat
  e_shoff : Nat
  e_flags : Nat
  e_ehsize : Nat
  e_phentsize : Nat
  e_phnum : Nat
  e_shentsize : Nat
  e_shnum : Nat
  e_shstrndx : Nat
deriving DecidableEq

/-- A section header, `Elf64_Shdr` in `src/elf.rs`. -/
structure Elf64_Shdr where
  sh_name : Nat
  sh_type : Nat
  sh_flags : Nat
  sh_addr : Nat
  sh_offset : Nat
  sh_size : Nat
  sh_link : Nat
  sh_info : Nat
  sh_addralign : Nat
  sh_entsize : Nat
deriving DecidableEq

/-- A symbol record, `Elf64_Sym` in `src/elf.rs`. -/
structure Elf64_Sym where
  st_name : Nat
  st_info : Nat
  st_other : Nat
  st_shndx : Nat
  st_value : Nat
  st_size : Nat
deriving DecidableEq

/-- Little-endian interpretation of a byte list, as done by the unchecked
casts of byte buffers to `repr(C)` records on a little-endian host. -/
def leNat : List Nat → Nat
  | [] => 0
  | b :: rest => b + 256 * leNat rest

/-- The sub-slice `l[off .. off+n]`. -/
def sub (l : List Nat) (off n : Nat) : List Nat :=
  (l.drop off).take n

/-- Decode the 64 header bytes into an `Elf64_Ehdr` (field offsets follow the
`repr(C)` layout of the struct in `src/elf.rs`). -/
def decodeEhdr (b : List Nat) : Elf64_Ehdr where
  e_ident := sub b 0 16
  e_type := leNat (sub b 16 2)
  e_machine := leNat (sub b 18 2)
  e_version := leNat (sub b 20 4)
  e_entry := leNat (sub b 24 8)
  e_phoff := leNat (sub b 32 8)
  e_shoff := leNat (sub b 40 8)
  e_flags := leNat (sub b 48 4)
  e_ehsize := leNat (sub b 52 2)
  e_phentsize := leNat (sub b 54 2)
  e_phnum := leNat (sub b 56 2)
  e_shentsize := leNat (sub b 58 2)
  e_shnum := leNat (sub b 60 2)
  e_shstrndx := leNat (sub b 62 2)

/-- Decode one 64-byte section header record. -/
def decodeShdr (b : List Nat) : Elf64_Shdr where
  sh_name := leNat (sub b 0 4)
  sh_type := leNat (sub b 4 4)
  sh_flags := leNat (sub b 8 8)
  sh_addr := leNat (sub b 16 8)
  sh_offset := leNat (sub b 24 8)
  sh_size := leNat (sub b 32 8)
  sh_link := leNat (sub b 40 4)
  sh_info := leNat (sub b 44 4)
  sh_addralign := leNat (sub b 48 8)
  sh_entsize := leNat (sub b 56 8)

/-- Reinterpret a buffer as `num` section headers, as `read_elf_sections`
does with `Vec::from_raw_parts`. -/
def decodeShdrs (b : List Nat) (num : Nat) : List Elf64_Shdr :=
  (List.range num).map (fun i => decodeShdr (sub b (i * 64) 64))

/-- Decode one 24-byte symbol record (`repr(C)` layout of `Elf64_Sym`). -/
def decodeSym (b : List Nat) : Elf64_Sym where
  st_name := leNat (sub b 0 4)
  st_info := leNat (sub b 4 1)
  st_other := leNat (sub b 5 1)
  st_shndx := leNat (sub b 6 2)
  st_value := leNat (sub b 8 8)
  st_size := leNat (sub b 16 8)

/-- Reinterpret a buffer as `cnt` symbol records, as `ensure_symtab` does. -/
def decodeSyms (b : List Nat) (cnt : Nat) : List Elf64_Sym :=
  (List.range cnt).map (fun i => decodeSym (sub b (i * 24) 24))

/-- Whether a byte is a UTF-8 continuation byte. -/
def isCont (b : Nat) : Bool :=
  0x80 ≤ b && b ≤ 0xBF

/-- UTF-8 validity of a byte sequence, following the validation performed by
`String::from_utf8` (RFC 3629: shortest forms only, no surrogates, maximum
code point U+10FFFF). -/
def utf8Valid : List Nat → Bool
  | [] => true
  | b :: rest =>
    if b ≤ 0x7F then utf8Valid rest
    else if 0xC2 ≤ b && b ≤ 0xDF then
      match rest with
      | c1 :: r => isCont c1 && utf8Valid r
      | [] => false
    else if b = 0xE0 then
      match rest with
      | c1 :: c2 :: r => (0xA0 ≤ c1 && c1 ≤ 0xBF) && (isCont c2 && utf8Valid r)
      | _ => false
    else if (0xE1 ≤ b && b ≤ 0xEC) || (b = 0xEE || b = 0xEF) then
      match rest with
      | c1 :: c2 :: r => isCont c1 && (isCont c2 && utf8Valid r)
      | _ => false
    else if b = 0xED then
      match rest with
      | c1 :: c2 :: r => (0x80 ≤ c1 && c1 ≤ 0x9F) && (isCont c2 && utf8Valid r)
      | _ => false
    else if b = 0xF0 then
      match rest with
      | c1 :: c2 :: c3 :: r => (0x90 ≤ c1 && c1 ≤ 0xBF) && (isCont c2 && (isCont c3 && utf8Valid r))
      | _ => false
    else if 0xF1 ≤ b && b ≤ 0xF3 then
      match rest with
      | c1 :: c2 :: c3 :: r => isCont c1 && (isCont c2 && (isCont c3 && utf8Valid r))
      | _ => false
    else if b = 0xF4 then
      match rest with
      | c1 :: c2 :: c3 :: r => (0x80 ≤ c1 && c1 ≤ 0x8F) && (isCont c2 && (isCont c3 && utf8Valid r))
      | _ => false
    else false

/-- Result of `extract_string`: `crash` models the panic of the unbounded
scan loop indexing past the end of the slice, `invalid` is the `None` of the
source (offset out of bounds, or the bytes are not valid UTF-8), and
`ok bytes` is `Some(s)` where `bytes` is the UTF-8 content of `s`. -/
inductive StrRes where
  | crash
  | invalid
  | ok (bytes : List Nat)
deriving DecidableEq

/-- Embedding of `extract_string` from `src/elf.rs`.  The source checks
`off >= strtab.len()` up front, then advances `end` while `strtab[end] != 0`:
when no NUL byte occurs at or after `off` the loop indexes past the end of
the slice and panics (`crash`).  Otherwise the bytes up to the first NUL are
checked for UTF-8 validity. -/
def extract_string (strtab : List Nat) (off : Nat) : StrRes :=
  if strtab.length ≤ off then .invalid
  else
    match (strtab.drop off).findIdx? (fun b => b == 0) with
    | none => .crash
    | some k =>
      let blk := (strtab.drop off).take k
      if utf8Valid blk then .ok blk else .invalid

/-- Stable insertion of a symbol into a list ordered by `st_value`: the
inserted element is placed before every element of equal key, which matches
the placement a stable sort gives an element coming earlier in the input. -/
def insertSym (x : Elf64_Sym) : List Elf64_Sym → List Elf64_Sym
  | [] => [x]
  | y :: ys => if x.st_value ≤ y.st_value then x :: y :: ys else y :: insertSym x ys

/-- Stable sort of the symbol table by `st_value`, the model of
`symtab.sort_by_key(|x| x.st_value)` (Rust's slice sort is stable, and any
two stable sorts by the same key agree). -/
def sortSyms : List Elf64_Sym → List Elf64_Sym
  | [] => []
  | x :: xs => insertSym x (sortSyms xs)

/-- Update step of the address search: fold state is the best candidate so
far as `(index, key)`; a defined key `k ≤ a` that is at least the current
best replaces it, so later entries win ties. -/
def updBest (a : Nat) (key : Elf64_Sym → Option Nat) (sym : Elf64_Sym) (i : Nat) :
    Option (Nat × Nat) → Option (Nat × Nat)
  | none =>
    match key sym with
    | none => none
    | some k => if k ≤ a then some (i, k) else none
  | some (j, bk) =>
    match key sym with
    | none => some (j, bk)
    | some k => if k ≤ a ∧ bk ≤ k then some (i, k) else some (j, bk)

/-- Walk of the symbol list carrying the running index and best candidate. -/
def searchFrom (a : Nat) (key : Elf64_Sym → Option Nat) :
    List Elf64_Sym → Nat → Option (Nat × Nat) → Option (Nat × Nat)
  | [], _, best => best
  | sym :: rest, i, best => searchFrom a key rest (i + 1) (updBest a key sym i best)

/-- Modelled from the spec: the search routine `tools::search_address_opt_key`
used by `find_symbol` is not part of the sources under `src/` (only its
caller is), so it is rendered from the contract of spec section 4.3: return
the index of the greatest-keyed entry whose key is defined and at most the
address, skipping entries whose key is `None`, with ties resolved to the
last (highest-index) matching entry; `None` when no entry qualifies. -/
def search_address_opt_key (syms : List Elf64_Sym) (address : Nat)
    (key : Elf64_Sym → Option Nat) : Option Nat :=
  (searchFrom address key syms 0 none).map Prod.fst

/-- The symbol filter and key of `find_symbol`: `None` unless the low four
bits of `st_info` equal the requested type and the section index is not
`SHN_UNDEF` (0); otherwise the key is `st_value`.  The bit-mask
`st_info & 0xf` of the source is `st_info % 16`. -/
def symKey (st_type : Nat) (sym : Elf64_Sym) : Option Nat :=
  if sym.st_info % 16 ≠ st_type ∨ sym.st_shndx = 0 then none
  else some sym.st_value

/-- The cache record `Elf64ParserBack`: six lazily populated caches. -/
structure Back where
  ehdr : Option Elf64_Ehdr
  shdrs : Option (List Elf64_Shdr)
  shstrtab : Option (List Nat)
  symtab : Option (List Elf64_Sym)
  symtab_origin : Option (List Elf64_Sym)
  strtab : Option (List Nat)
deriving DecidableEq

/-- The all-`None` cache record a freshly opened image starts with. -/
def Back.empty : Back where
  ehdr := none
  shdrs := none
  shstrtab := none
  symtab := none
  symtab_origin := none
  strtab := none

/-- Whole-image state of an `Elf64Parser`: the file bytes, the cursor of the
backing `File`, a count of the read calls issued so far (to make the
re-reading behaviour observable), and the caches. -/
structure PState where
  file : List Nat
  pos : Nat
  reads : Nat
  back : Back
deriving DecidableEq

/-- The state produced by `Elf64Parser::open`: cursor at zero, no reads
performed, no cache populated. -/
def openState (file : List Nat) : PState where
  file := file
  pos := 0
  reads := 0
  back := Back.empty

/-- Outcome of one operation: a Rust panic (`crash`), an `Err` carrying the
error kind and the state it left behind, or an `Ok` value with the new
state. -/
inductive Out (α : Type) where
  | crash
  | err (e : ErrKind) (s : PState)
  | ok (a : α) (s : PState)
deriving DecidableEq

/-- Sequencing of outcomes: errors and panics propagate. -/
def Out.bind {α β : Type} : Out α → (α → PState → Out β) → Out β
  | .crash, _ => .crash
  | .err e s, _ => .err e s
  | .ok a s, f => f a s

/-- Embedding of `read_u8`: seek to `off`, then `read_exact` of `size`
bytes.  The read fails when fewer than `size` bytes remain; either way one
read call is issued. -/
def read_u8 (off size : Nat) (s : PState) : Out (List Nat) :=
  if off + size ≤ s.file.length then
    .ok (sub s.file off size) { s with pos := off + size, reads := s.reads + 1 }
  else
    .err .ioError { s with pos := off, reads := s.reads + 1 }

/-- Embedding of `read_elf_header`: reads 64 bytes at the current cursor
position (the source does not seek first) and reinterprets them. -/
def read_elf_header (s : PState) : Out Elf64_Ehdr :=
  if s.pos + 64 ≤ s.file.length then
    .ok (decodeEhdr (sub s.file s.pos 64)) { s with pos := s.pos + 64, reads := s.reads + 1 }
  else
    .err .ioError { s with reads := s.reads + 1 }

/-- Embedding of `read_elf_sections`: `e_shnum * 64` bytes at `e_shoff`,
reinterpreted as section headers. -/
def read_elf_sections (e : Elf64_Ehdr) (s : PState) : Out (List Elf64_Shdr) :=
  (read_u8 e.e_shoff (e.e_shnum * 64) s).bind fun buf s1 =>
    .ok (decodeShdrs buf e.e_shnum) s1

/-- Embedding of `read_elf_section_raw`: the section bytes at
`sh_offset .. sh_offset + sh_size`. -/
def read_elf_section_raw (sec : Elf64_Shdr) (s : PState) : Out (List Nat) :=
  read_u8 sec.sh_offset sec.sh_size s

/-- Embedding of `read_elf_section_seek`: position the cursor at the start
of the section (no read is issued). -/
def read_elf_section_seek (sec : Elf64_Shdr) (s : PState) : Out Unit :=
  .ok () { s with pos := sec.sh_offset }

/-- Embedding of `read_elf_section_offset_seek`: `InvalidInput` when the
offset is not below `sh_size`, otherwise seek. -/
def read_elf_section_offset_seek (sec : Elf64_Shdr) (offset : Nat) (s : PState) : Out Unit :=
  if sec.sh_size ≤ offset then .err .invalidInput s
  else .ok () { s with pos := sec.sh_offset + offset }

/-- Cache setter for `ehdr`. -/
def withEhdr (s : PState) (e : Elf64_Ehdr) : PState :=
  { s with back := { s.back with ehdr := some e } }

/-- Cache setter for `shdrs`. -/
def withShdrs (s : PState) (v : List Elf64_Shdr) : PState :=
  { s with back := { s.back with shdrs := some v } }

/-- Cache setter for `shstrtab`. -/
def withShstrtab (s : PState) (v : List Nat) : PState :=
  { s with back := { s.back with shstrtab := some v } }

/-- Cache setter filling both symbol-table views at once, as the tail of
`ensure_symtab` does. -/
def withSymtabs (s : PState) (sorted origin : List Elf64_Sym) : PState :=
  { s with back := { s.back with symtab := some sorted, symtab_origin := some origin } }

/-- Cache setter for `strtab`. -/
def withStrtab (s : PState) (v : List Nat) : PState :=
  { s with back := { s.back with strtab := some v } }

/-- Embedding of `Elf64Parser::ensure_ehdr`. -/
def ensure_ehdr (s : PState) : Out Unit :=
  match s.back.ehdr with
  | some _ => .ok () s
  | none =>
    (read_elf_header s).bind fun e s1 => .ok () (withEhdr s1 e)

/-- Embedding of `Elf64Parser::ensure_shdrs`.  The `unwrap` of the header
cache is a crash branch (it is unreachable after `ensure_ehdr` succeeds). -/
def ensure_shdrs (s : PState) : Out Unit :=
  (ensure_ehdr s).bind fun _ s1 =>
    match s1.back.shdrs with
    | some _ => .ok () s1
    | none =>
      match s1.back.ehdr with
      | none => .crash
      | some e =>
        (read_elf_sections e s1).bind fun v s2 => .ok () (withShdrs s2 v)

/-- Embedding of `Elf64Parser::ensure_shstrtab`.  Indexing
`shdrs[e_shstrndx]` panics when the index is out of range. -/
def ensure_shstrtab (s : PState) : Out Unit :=
  (ensure_shdrs s).bind fun _ s1 =>
    match s1.back.shstrtab with
    | some _ => .ok () s1
    | none =>
      match s1.back.ehdr, s1.back.shdrs with
      | some e, some hs =>
        match hs.get? e.e_shstrndx with
        | none => .crash
        | some sec =>
          (read_elf_section_raw sec s1).bind fun v s2 => .ok () (withShstrtab s2 v)
      | _, _ => .crash

/-- Embedding of `Elf64Parser::get_num_sections`: `e_shnum` of the cached
header. -/
def get_num_sections (s : PState) : Out Nat :=
  (ensure_ehdr s).bind fun _ s1 =>
    match s1.back.ehdr with
    | none => .crash
    | some e => .ok e.e_shnum s1

/-- Embedding of `Elf64Parser::check_section_index`: `InvalidInput` when the
section count is not above the index. -/
def check_section_index (sect_idx : Nat) (s : PState) : Out Unit :=
  (get_num_sections s).bind fun n s1 =>
    if n ≤ sect_idx then .err .invalidInput s1 else .ok () s1

/-- Embedding of `Elf64Parser::section_seek`. -/
def section_seek (sect_idx : Nat) (s : PState) : Out Unit :=
  (check_section_index sect_idx s).bind fun _ s1 =>
    (ensure_shdrs s1).bind fun _ s2 =>
      match s2.back.shdrs with
      | none => .crash
      | some hs =>
        match hs.get? sect_idx with
        | none => .crash
        | some sec => read_elf_section_seek sec s2

/-- Embedding of `Elf64Parser::section_offset_seek`. -/
def section_offset_seek (sect_idx offset : Nat) (s : PState) : Out Unit :=
  (check_section_index sect_idx s).bind fun _ s1 =>
    (ensure_shdrs s1).bind fun _ s2 =>
      match s2.back.shdrs with
      | none => .crash
      | some hs =>
        match hs.get? sect_idx with
        | none => .crash
        | some sec => read_elf_section_offset_seek sec offset s2

/-- Embedding of `Elf64Parser::read_section_raw`. -/
def read_section_raw (sect_idx : Nat) (s : PState) : Out (List Nat) :=
  (check_section_index sect_idx s).bind fun _ s1 =>
    (ensure_shdrs s1).bind fun _ s2 =>
      match s2.back.shdrs with
      | none => .crash
      | some hs =>
        match hs.get? sect_idx with
        | none => .crash
        | some sec => read_elf_section_raw sec s2

/-- Embedding of `Elf64Parser::get_section_name`.  A failed extraction
(offset out of bounds or invalid UTF-8) is `InvalidData`; the unbounded NUL
scan of `extract_string` can also panic. -/
def get_section_name (sect_idx : Nat) (s : PState) : Out (List Nat) :=
  (check_section_index sect_idx s).bind fun _ s1 =>
    (ensure_shstrtab s1).bind fun _ s2 =>
      match s2.back.shdrs, s2.back.shstrtab with
      | some hs, some st =>
        match hs.get? sect_idx with
        | none => .crash
        | some sec =>
          match extract_string st sec.sh_name with
          | .crash => .crash
          | .invalid => .err .invalidData s2
          | .ok nm => .ok nm s2
      | _, _ => .crash

/-- Embedding of `Elf64Parser::get_section_size`. -/
def get_section_size (sect_idx : Nat) (s : PState) : Out Nat :=
  (check_section_index sect_idx s).bind fun _ s1 =>
    (ensure_shdrs s1).bind fun _ s2 =>
      match s2.back.shdrs with
      | none => .crash
      | some hs =>
        match hs.get? sect_idx with
        | none => .crash
        | some sec => .ok sec.sh_size s2

/-- Loop of `find_section`: try indices `i, i+1, ...` while `fuel` lasts
(`fuel` is the number of sections still to try).  The source calls
`self.get_section_name(i).unwrap()`, so an `Err` from the name lookup is a
panic. -/
def find_section_from (name : List Nat) : Nat → Nat → PState → Out Nat
  | _, 0, s => .err .notFound s
  | i, fuel + 1, s =>
    match get_section_name i s with
    | .crash => .crash
    | .err _ _ => .crash
    | .ok nm s1 => if nm = name then .ok i s1 else find_section_from name (i + 1) fuel s1

/-- Embedding of `Elf64Parser::find_section`. -/
def find_section (name : List Nat) (s : PState) : Out Nat :=
  (get_num_sections s).bind fun n s1 => find_section_from name 0 n s1

/-- The name `".symtab"` as bytes. -/
def dotSymtab : List Nat := [46, 115, 121, 109, 116, 97, 98]

/-- The name `".strtab"` as bytes. -/
def dotStrtab : List Nat := [46, 115, 116, 114, 116, 97, 98]

/-- The name `".shstrtab"` as bytes. -/
def dotShstrtab : List Nat := [46, 115, 104, 115, 116, 114, 116, 97, 98]

/-- Embedding of `Elf64Parser::ensure_symtab`: find and read `.symtab`,
fail with `InvalidData` unless the size is a whole number of 24-byte
records, keep the file-order copy and the stable sort by `st_value`. -/
def ensure_symtab (s : PState) : Out Unit :=
  if s.back.symtab.isSome then .ok () s
  else
    (find_section dotSymtab s).bind fun idx s1 =>
      (read_section_raw idx s1).bind fun raw s2 =>
        if raw.length % 24 ≠ 0 then .err .invalidData s2
        else
          let origin := decodeSyms raw (raw.length / 24)
          .ok () (withSymtabs s2 (sortSyms origin) origin)

/-- Embedding of `Elf64Parser::ensure_strtab`: find and read `.strtab`. -/
def ensure_strtab (s : PState) : Out Unit :=
  if s.back.strtab.isSome then .ok () s
  else
    (find_section dotStrtab s).bind fun idx s1 =>
      (read_section_raw idx s1).bind fun raw s2 => .ok () (withStrtab s2 raw)

/-- Embedding of `Elf64Parser::find_symbol`: ensure both tables, run the
filtered address search over the sorted view, extract the name of the found
symbol from the string table. -/
def find_symbol (address st_type : Nat) (s : PState) : Out (List Nat × Nat) :=
  (ensure_symtab s).bind fun _ s1 =>
    (ensure_strtab s1).bind fun _ s2 =>
      match s2.back.symtab with
      | none => .crash
      | some tab =>
        match search_address_opt_key tab address (symKey st_type) with
        | none => .err .notFound s2
        | some idx =>
          match tab.get? idx with
          | none => .crash
          | some sym =>
            match s2.back.strtab with
            | none => .crash
            | some stb =>
              match extract_string stb sym.st_name with
              | .crash => .crash
              | .invalid => .err .invalidData s2
              | .ok nm => .ok (nm, sym.st_value) s2

/-- Embedding of `Elf64Parser::get_num_symbols`. -/
def get_num_symbols (s : PState) : Out Nat :=
  (ensure_symtab s).bind fun _ s1 =>
    match s1.back.symtab with
    | none => .crash
    | some tab => .ok tab.length s1

/-- Embedding of `Elf64Parser::get_symbol`: the index into the sorted view
is not checked, so an out-of-range index panics. -/
def get_symbol (idx : Nat) (s : PState) : Out Elf64_Sym :=
  (ensure_symtab s).bind fun _ s1 =>
    match s1.back.symtab with
    | none => .crash
    | some tab =>
      match tab.get? idx with
      | none => .crash
      | some sym => .ok sym s1

/-- Embedding of `Elf64Parser::get_symbol_origin`: unchecked index into the
file-order view. -/
def get_symbol_origin (idx : Nat) (s : PState) : Out Elf64_Sym :=
  (ensure_symtab s).bind fun _ s1 =>
    match s1.back.symtab_origin with
    | none => .crash
    | some tab =>
      match tab.get? idx with
      | none => .crash
      | some sym => .ok sym s1

/-- Embedding of `Elf64Parser::get_symbol_name`: note that the source
unwraps the `strtab` cache without ensuring it first, so the lookup panics
when the string table has not been loaded by some other operation. -/
def get_symbol_name (idx : Nat) (s : PState) : Out (List Nat) :=
  (get_symbol idx s).bind fun sym s1 =>
    match s1.back.strtab with
    | none => .crash
    | some stb =>
      match extract_string stb sym.st_name with
      | .crash => .crash
      | .invalid => .err .invalidData s1
      | .ok nm => .ok nm s1

/-- The `Input` coordinate sum of `src/symbolize/mod.rs`. -/
inductive Input (T : Type) where
  | AbsAddr (x : T)
  | VirtOffset (x : T)
  | FileOffset (x : T)

/-- Embedding of `Input::into_inner`: the payload, regardless of variant. -/
def Input.into_inner {T : Type} : Input T → T
  | .AbsAddr x => x
  | .VirtOffset x => x
  | .FileOffset x => x

/-- Little-endian byte encoding of a number in `w` bytes. -/
def leBytes (n : Nat) : Nat → List Nat
  | 0 => []
  | w + 1 => n % 256 :: leBytes (n / 256) w

/-- Bytes of an ELF header whose only meaningful fields are the section
table offset, the section count, and the section-name table index. -/
def mkEhdrBytes (shoff shnum shstrndx : Nat) : List Nat :=
  List.replicate 16 0 ++ leBytes 0 2 ++ leBytes 0 2 ++ leBytes 0 4 ++ leBytes 0 8 ++
    leBytes 0 8 ++ leBytes shoff 8 ++ leBytes 0 4 ++ leBytes 64 2 ++ leBytes 0 2 ++
    leBytes 0 2 ++ leBytes 64 2 ++ leBytes shnum 2 ++ leBytes shstrndx 2

/-- Bytes of a section header with the given name offset, file offset and
size (all other fields zero). -/
def mkShdrBytes (name off size : Nat) : List Nat :=
  leBytes name 4 ++ leBytes 0 4 ++ leBytes 0 8 ++ leBytes 0 8 ++ leBytes off 8 ++
    leBytes size 8 ++ leBytes 0 4 ++ leBytes 0 4 ++ leBytes 0 8 ++ leBytes 0 8

/-- Bytes of a symbol record. -/
def mkSymBytes (name info other shndx value size : Nat) : List Nat :=
  leBytes name 4 ++ [info, other] ++ leBytes shndx 2 ++ leBytes value 8 ++ leBytes size 8

/-- Section-name string table of the test images:
`".shstrtab\x00.symtab\x00.strtab\x00"` (offsets 0, 10 and 18). -/
def testShstrtab : List Nat :=
  dotShstrtab ++ [0] ++ dotSymtab ++ [0] ++ dotStrtab ++ [0]

/-- Symbol string table of the test images: `"\x00foo\x00bar\x00baz\x00"`. -/
def testStrtab : List Nat :=
  [0, 102, 111, 111, 0, 98, 97, 114, 0, 98, 97, 122, 0]

/-- Symbol records of the test images: `foo` and `bar` are both `STT_FUNC`
at value 100 (an alias pair), `baz` is `STT_FUNC` at value 200, all defined
in section 1. -/
def testSymBytes : List Nat :=
  mkSymBytes 1 2 0 1 100 0 ++ mkSymBytes 5 2 0 1 100 0 ++ mkSymBytes 9 2 0 1 200 0

/-- A well-formed little test image: header, three sections (`.shstrtab`,
`.symtab`, `.strtab`), then the three section bodies. -/
def goodElf : List Nat :=
  mkEhdrBytes 64 3 0 ++
    mkShdrBytes 0 256 26 ++ mkShdrBytes 10 282 72 ++ mkShdrBytes 18 354 13 ++
    testShstrtab ++ testSymBytes ++ testStrtab

/-- The same image with the name offset of section 0 pointing past the end
of the section-name table, so that extracting the name of section 0 fails. -/
def badNameElf : List Nat :=
  mkEhdrBytes 64 3 0 ++
    mkShdrBytes 100 256 26 ++ mkShdrBytes 10 282 72 ++ mkShdrBytes 18 354 13 ++
    testShstrtab ++ testSymBytes ++ testStrtab

/-- The same image with the size of `.symtab` declared as 70, which is not a
multiple of the 24-byte record size. -/
def badSizeElf : List Nat :=
  mkEhdrBytes 64 3 0 ++
    mkShdrBytes 0 256 26 ++ mkShdrBytes 10 282 70 ++ mkShdrBytes 18 354 13 ++
    testShstrtab ++ testSymBytes ++ testStrtab

/-- Freshly opened state over the well-formed test image. -/
def goodS0 : PState := openState goodElf

/-- Freshly opened state over the image with the broken section name. -/
def badNameS0 : PState := openState badNameElf

/-- Freshly opened state over the image with the misaligned `.symtab`. -/
def badSizeS0 : PState := openState badSizeElf

/-- Freshly opened state over an empty file. -/
def emptyS0 : PState := openState []

/-- State after `get_num_symbols` on the well-formed image (the symbol table
cache is filled, the string table cache is not). -/
def goodSymS : PState :=
  match get_num_symbols goodS0 with
  | .ok _ s => s
  | _ => goodS0

/-- State after `read_section_raw 0` on the well-formed image. -/
def goodRawS : PState :=
  match read_section_raw 0 goodS0 with
  | .ok _ s => s
  | _ => goodS0

/-- State after the failing `ensure_ehdr` on the empty file. -/
def emptyS1 : PState :=
  match ensure_ehdr emptyS0 with
  | .err _ s => s
  | _ => emptyS0

/-- State after `ensure_symtab` on the well-formed image. -/
def goodEnsS : PState :=
  match ensure_symtab goodS0 with
  | .ok _ s => s
  | _ => goodS0

/-- State after `find_section ".symtab"` on the well-formed image. -/
def goodFsS1 : PState :=
  match find_section dotSymtab goodS0 with
  | .ok _ s => s
  | _ => goodS0

/-- Raw bytes of section 1 (`.symtab`) of the well-formed image. -/
def goodRaw : List Nat :=
  match read_section_raw 1 goodFsS1 with
  | .ok r _ => r
  | _ => []

/-- State after reading the raw `.symtab` bytes of the well-formed image. -/
def goodRawS2 : PState :=
  match read_section_raw 1 goodFsS1 with
  | .ok _ s => s
  | _ => goodS0

/-- State after `find_section ".symtab"` on the misaligned image. -/
def badSizeS1 : PState :=
  match find_section dotSymtab badSizeS0 with
  | .ok _ s => s
  | _ => badSizeS0

/-- Raw `.symtab` bytes (70 of them) of the misaligned image. -/
def badSizeRaw : List Nat :=
  match read_section_raw 1 badSizeS1 with
  | .ok r _ => r
  | _ => []

/-- State after reading the misaligned `.symtab` bytes. -/
def badSizeS2 : PState :=
  match read_section_raw 1 badSizeS1 with
  | .ok _ s => s
  | _ => badSizeS0

/-- State after `get_num_sections` on the well-formed image. -/
def goodNumS : PState :=
  match get_num_sections goodS0 with
  | .ok _ s => s
  | _ => goodS0

/-- State after `get_section_size 0` on the well-formed image. -/
def goodSizeS : PState :=
  match get_section_size 0 goodS0 with
  | .ok _ s => s
  | _ => goodS0

/-- State after `get_section_name 1` on the image with the broken name. -/
def badNameS1 : PState :=
  match get_section_name 1 badNameS0 with
  | .ok _ s => s
  | _ => badNameS0

/-- State after `find_section ".strtab"` on the well-formed image. -/
def fsStrS : PState :=
  match find_section dotStrtab goodS0 with
  | .ok _ s => s
  | _ => goodS0

/-- State after a second `read_section_raw 0` on the well-formed image. -/
def goodRawS2x : PState :=
  match read_section_raw 0 goodRawS with
  | .ok _ s => s
  | _ => goodS0

/-- State after a second failing `ensure_ehdr` on the empty file. -/
def emptyS2 : PState :=
  match ensure_ehdr emptyS1 with
  | .err _ s => s
  | _ => emptyS0

/-- State after `ensure_ehdr` on the well-formed image. -/
def goodEhdrS : PState :=
  match ensure_ehdr goodS0 with
  | .ok _ s => s
  | _ => goodS0

/-- State after `find_symbol 150 FUNC` on the well-formed image. -/
def goodFindS : PState :=
  match find_symbol 150 2 goodS0 with
  | .ok _ s => s
  | _ => goodS0

/-- A property of the state an outcome carries: trivially true for a panic,
and the property of the final state otherwise.  Used to phrase frame
conditions uniformly over `ok` and `err` outcomes. -/
def OnState {α : Type} (o : Out α) (P : PState → Prop) : Prop :=
  match o with
  | .crash => True
  | .err _ s => P s
  | .ok _ s => P s

/-- Cache monotonicity: every cache populated in `b` is still populated,
with the same content, in `b2`. -/
def Back.mono (b b2 : Back) : Prop :=
  (∀ x, b.ehdr = some x → b2.ehdr = some x) ∧
  (∀ x, b.shdrs = some x → b2.shdrs = some x) ∧
  (∀ x, b.shstrtab = some x → b2.shstrtab = some x) ∧
  (∀ x, b.symtab = some x → b2.symtab = some x) ∧
  (∀ x, b.symtab_origin = some x → b2.symtab_origin = some x) ∧
  (∀ x, b.strtab = some x → b2.strtab = some x)

/-- The two symbol-table caches are filled together by `ensure_symtab`, so a
state with a file-order view but no sorted view never arises. -/
def originInv (s : PState) : Prop :=
  s.back.symtab = none → s.back.symtab_origin = none

/-- The two symbol-table views are copies of the same record list, so they
have the same length whenever both are populated. -/
def originLenInv (s : PState) : Prop :=
  ∀ tab orig, s.back.symtab = some tab → s.back.symtab_origin = some orig →
    orig.length = tab.length

/-- Frame condition of the operations that may fill the header and section
caches but nothing else: the other four caches and the file bytes are
untouched, and the two fillable caches are only ever added to. -/
def Frame2 (s s1 : PState) : Prop :=
  s1.back.shstrtab = s.back.shstrtab ∧ s1.back.symtab = s.back.symtab ∧
  s1.back.symtab_origin = s.back.symtab_origin ∧ s1.back.strtab = s.back.strtab ∧
  s1.file = s.file ∧
  (∀ x, s.back.ehdr = some x → s1.back.ehdr = some x) ∧
  (∀ x, s.back.shdrs = some x → s1.back.shdrs = some x)

/-- Frame condition of the operations that may additionally fill the
section-name string table cache. -/
def Frame3 (s s1 : PState) : Prop :=
  s1.back.symtab = s.back.symtab ∧ s1.back.symtab_origin = s.back.symtab_origin ∧
  s1.back.strtab = s.back.strtab ∧ s1.file = s.file ∧
  (∀ x, s.back.ehdr = some x → s1.back.ehdr = some x) ∧
  (∀ x, s.back.shdrs = some x → s1.back.shdrs = some x) ∧
  (∀ x, s.back.shstrtab = some x → s1.back.shstrtab = some x)

/-- Outcome of a cache-only computation (no state to carry). -/
inductive POut (α : Type) where
  | crash
  | err (e : ErrKind)
  | ok (a : α)
deriving DecidableEq

/-- Sequencing of cache-only outcomes. -/
def POut.bind {α β : Type} : POut α → (α → POut β) → POut β
  | .crash, _ => .crash
  | .err e, _ => .err e
  | .ok a, f => f a

/-- A cache-only outcome as an operation outcome at a fixed state. -/
def liftP {α : Type} : POut α → PState → Out α
  | .crash, _ => .crash
  | .err e, s => .err e s
  | .ok a, s => .ok a s

/-- Cache-level recomputation of `get_num_sections`. -/
def numSectionsB (b : Back) : POut Nat :=
  match b.ehdr with
  | none => .crash
  | some e => .ok e.e_shnum

/-- Cache-level recomputation of `check_section_index`. -/
def checkIdxB (i : Nat) (b : Back) : POut Unit :=
  (numSectionsB b).bind fun n => if n ≤ i then .err .invalidInput else .ok ()

/-- Cache-level recomputation of `get_section_name`. -/
def sectionNameB (i : Nat) (b : Back) : POut (List Nat) :=
  (checkIdxB i b).bind fun _ =>
    match b.shdrs, b.shstrtab with
    | some hs, some st =>
      match hs.get? i with
      | none => .crash
      | some sec =>
        match extract_string st sec.sh_name with
        | .crash => .crash
        | .invalid => .err .invalidData
        | .ok nm => .ok nm
    | _, _ => .crash

/-- Cache-level recomputation of `get_section_size`. -/
def sectionSizeB (i : Nat) (b : Back) : POut Nat :=
  (checkIdxB i b).bind fun _ =>
    match b.shdrs with
    | none => .crash
    | some hs =>
      match hs.get? i with
      | none => .crash
      | some sec => .ok sec.sh_size

/-- Cache-level recomputation of the `find_section` loop. -/
def findFromB (name : List Nat) : Nat → Nat → Back → POut Nat
  | _, 0, _ => .err .notFound
  | i, fuel + 1, b =>
    match sectionNameB i b with
    | .crash => .crash
    | .err _ => .crash
    | .ok nm => if nm = name then .ok i else findFromB name (i + 1) fuel b

/-- Cache-level recomputation of `find_section`. -/
def findSectionB (name : List Nat) (b : Back) : POut Nat :=
  (numSectionsB b).bind fun n => findFromB name 0 n b

/-- Cache-level recomputation of `get_num_symbols`. -/
def numSymbolsB (b : Back) : POut Nat :=
  match b.symtab with
  | none => .crash
  | some tab => .ok tab.length

/-- Cache-level recomputation of `get_symbol`. -/
def symbolB (idx : Nat) (b : Back) : POut Elf64_Sym :=
  match b.symtab with
  | none => .crash
  | some tab =>
    match tab.get? idx with
    | none => .crash
    | some sym => .ok sym

/-- Cache-level recomputation of `get_symbol_origin`. -/
def symbolOriginB (idx : Nat) (b : Back) : POut Elf64_Sym :=
  match b.symtab_origin with
  | none => .crash
  | some tab =>
    match tab.get? idx with
    | none => .crash
    | some sym => .ok sym

/-- Cache-level recomputation of `get_symbol_name`. -/
def symbolNameB (idx : Nat) (b : Back) : POut (List Nat) :=
  (symbolB idx b).bind fun sym =>
    match b.strtab with
    | none => .crash
    | some stb =>
      match extract_string stb sym.st_name with
      | .crash => .crash
      | .invalid => .err .invalidData
      | .ok nm => .ok nm

/-- Cache-level recomputation of `find_symbol`. -/
def findSymbolB (address st_type : Nat) (b : Back) : POut (List Nat × Nat) :=
  match b.symtab with
  | none => .crash
  | some tab =>
    match search_address_opt_key tab address (symKey st_type) with
    | none => .err .notFound
    | some idx =>
      match tab.get? idx with
      | none => .crash
      | some sym =>
        match b.strtab with
        | none => .crash
        | some stb =>
          match extract_string stb sym.st_name with
          | .crash => .crash
          | .invalid => .err .invalidData
          | .ok nm => .ok (nm, sym.st_value)

/-- The symbol filter of `find_symbol` as a proposition: type bits match and
the section index is defined. -/
def symMatches (st_type : Nat) (sym : Elf64_Sym) : Prop :=
  sym.st_info % 16 = st_type ∧ sym.st_shndx ≠ 0

instance (st_type : Nat) (sym : Elf64_Sym) : Decidable (symMatches st_type sym) :=
  inferInstanceAs (Decidable (sym.st_info % 16 = st_type ∧ sym.st_shndx ≠ 0))

/-- The symbol filter of `find_symbol` as a Boolean. -/
def symMatchesB (st_type : Nat) (sym : Elf64_Sym) : Bool :=
  (sym.st_info % 16 == st_type) && (sym.st_shndx != 0)

/-- A symbol used by the alias-tie witness: `bar`, the second of the two
`STT_FUNC` symbols at value 100 in the test image. -/
def wSymBar : Elf64_Sym where
  st_name := 5
  st_info := 2
  st_other := 0
  st_shndx := 1
  st_value := 100
  st_size := 0

/-- The symbol `foo` of the test image: `STT_FUNC` at value 100. -/
def wSymFoo : Elf64_Sym where
  st_name := 1
  st_info := 2
  st_other := 0
  st_shndx := 1
  st_value := 100
  st_size := 0

/-- The symbol `baz` of the test image: `STT_FUNC` at value 200. -/
def wSymBaz : Elf64_Sym where
  st_name := 9
  st_info := 2
  st_other := 0
  st_shndx := 1
  st_value := 200
  st_size := 0

/-- The decoded symbol table of the test image in file order. -/
def wTab : List Elf64_Sym := [wSymFoo, wSymBar, wSymBaz]

/-- A state whose symbol-table caches and string-table cache are populated
with the test symbols (the file itself is irrelevant once the caches are
filled). -/
def wState : PState where
  file := []
  pos := 0
  reads := 0
  back :=
    { ehdr := none
      shdrs := none
      shstrtab := none
      symtab := some wTab
      symtab_origin := some wTab
      strtab := some testStrtab }

/-- Claim C10: `Input::into_inner` returns the payload of every variant. -/
theorem claim10_into_inner :
    ∀ (T : Type) (x : T),
      (Input.AbsAddr x).into_inner = x ∧
      (Input.VirtOffset x).into_inner = x ∧
      (Input.FileOffset x).into_inner = x :=
  fun _ _ => ⟨rfl, rfl, rfl⟩

/-- Claim C2 (code bug): string extraction is not total.  On a string table
with no NUL byte at or after the offset, the scan loop of `extract_string`
indexes past the end of the slice and panics, while the specification
requires extraction never to panic on untrusted input.  An out-of-bounds
offset is rejected up front (`invalid`, surfaced as `InvalidData` by the
callers), a NUL-terminated ASCII run is returned, and invalid UTF-8 is
rejected, but the unterminated table `[0x61]` at offset 0 crashes. -/
theorem claim2_extract_string_crash :
    extract_string [97] 0 = .crash ∧
    extract_string [] 0 = .invalid ∧
    extract_string [102, 111, 111, 0] 4 = .invalid ∧
    extract_string [102, 111, 111, 0] 0 = .ok [102, 111, 111] ∧
    extract_string [255, 0] 0 = .invalid := by
  decide

theorem OnState_bind {α β : Type} {o : Out α} {f : α → PState → Out β} {P Q : PState → Prop}
    (h1 : OnState o P)
    (hok : ∀ a s1, o = .ok a s1 → P s1 → OnState (f a s1) Q)
    (herr : ∀ e s1, o = .err e s1 → P s1 → Q s1) :
    OnState (o.bind f) Q := by
  cases o with
  | crash => trivial
  | err e s => exact herr e s rfl h1
  | ok a s => exact hok a s rfl h1

theorem OnState_of_eq_ok {α : Type} {o : Out α} {P : PState → Prop} {a : α} {s1 : PState}
    (h : o = .ok a s1) (hP : OnState o P) : P s1 := by
  subst h; exact hP

theorem OnState_of_eq_err {α : Type} {o : Out α} {P : PState → Prop} {e : ErrKind} {s1 : PState}
    (h : o = .err e s1) (hP : OnState o P) : P s1 := by
  subst h; exact hP

theorem read_u8_frame (off n : Nat) (s : PState) :
    OnState (read_u8 off n s) (fun s1 => s1.back = s.back ∧ s1.file = s.file) := by
  unfold read_u8
  split <;> simp [OnState]

theorem read_elf_header_frame (s : PState) :
    OnState (read_elf_header s) (fun s1 => s1.back = s.back ∧ s1.file = s.file) := by
  unfold read_elf_header
  split <;> simp [OnState]

theorem read_elf_sections_frame (e : Elf64_Ehdr) (s : PState) :
    OnState (read_elf_sections e s) (fun s1 => s1.back = s.back ∧ s1.file = s.file) := by
  unfold read_elf_sections
  refine OnState_bind (read_u8_frame _ _ s) ?_ ?_
  · intro a s1 _ hP; exact hP
  · intro e1 s1 _ hP; exact hP

theorem read_elf_section_raw_frame (sec : Elf64_Shdr) (s : PState) :
    OnState (read_elf_section_raw sec s) (fun s1 => s1.back = s.back ∧ s1.file = s.file) :=
  read_u8_frame _ _ s

theorem ensure_ehdr_frame (s : PState) :
    OnState (ensure_ehdr s) (fun s1 =>
      s1.back.shdrs = s.back.shdrs ∧ s1.back.shstrtab = s.back.shstrtab ∧
      s1.back.symtab = s.back.symtab ∧ s1.back.symtab_origin = s.back.symtab_origin ∧
      s1.back.strtab = s.back.strtab ∧ s1.file = s.file ∧
      (∀ x, s.back.ehdr = some x → s1.back.ehdr = some x)) := by
  unfold ensure_ehdr
  cases h : s.back.ehdr with
  | some e => simp [OnState, h]
  | none =>
    refine OnState_bind (read_elf_header_frame s) ?_ ?_
    · intro a s1 _ hP
      simp [OnState, withEhdr, hP.1, hP.2, h]
    · intro e1 s1 _ hP
      simp [hP.1, hP.2, h]

theorem ensure_ehdr_isSome {s : PState} {v : Unit} {s1 : PState}
    (h : ensure_ehdr s = .ok v s1) : s1.back.ehdr.isSome := by
  unfold ensure_ehdr at h
  cases he : s.back.ehdr with
  | some e =>
    rw [he] at h
    cases h
    simp [he]
  | none =>
    rw [he] at h
    cases hr : read_elf_header s with
    | crash => rw [hr] at h; cases h
    | err e2 s2 => rw [hr] at h; cases h
    | ok e2 s2 =>
      rw [hr] at h
      cases h
      simp [withEhdr]

theorem bind_ok {α β : Type} {o : Out α} {f : α → PState → Out β} {b : β} {s2 : PState}
    (h : o.bind f = .ok b s2) : ∃ a s1, o = .ok a s1 ∧ f a s1 = .ok b s2 := by
  cases o with
  | crash => cases h
  | err e s => cases h
  | ok a s => exact ⟨a, s, rfl, h⟩

theorem bind_err {α β : Type} {o : Out α} {f : α → PState → Out β} {e : ErrKind} {s2 : PState}
    (h : o.bind f = .err e s2) :
    o = .err e s2 ∨ ∃ a s1, o = .ok a s1 ∧ f a s1 = .err e s2 := by
  cases o with
  | crash => cases h
  | err e1 s1 => simp only [Out.bind] at h; cases h; exact Or.inl rfl
  | ok a s1 => exact Or.inr ⟨a, s1, rfl, h⟩

theorem ensure_shdrs_frame (s : PState) :
    OnState (ensure_shdrs s) (Frame2 s) := by
  unfold ensure_shdrs Frame2
  refine OnState_bind (ensure_ehdr_frame s) ?_ ?_
  · intro a s1 hok hP
    obtain ⟨h1, h2, h3, h4, h5, h6, h7⟩ := hP
    cases hsh : s1.back.shdrs with
    | some v =>
      refine ⟨h2, h3, h4, h5, h6, h7, ?_⟩
      intro x hx
      rw [← h1] at hx
      exact hx
    | none =>
      cases hee : s1.back.ehdr with
      | none => exact trivial
      | some e =>
        refine OnState_bind (read_elf_sections_frame e s1) ?_ ?_
        · intro v s2 _ hQ
          refine ⟨?_, ?_, ?_, ?_, ?_, ?_, ?_⟩
          · simp [withShdrs, hQ.1, h2]
          · simp [withShdrs, hQ.1, h3]
          · simp [withShdrs, hQ.1, h4]
          · simp [withShdrs, hQ.1, h5]
          · simp [withShdrs, hQ.2, h6]
          · intro x hx
            simp [withShdrs, hQ.1]
            exact h7 x hx
          · intro x hx
            rw [← h1, hsh] at hx
            cases hx
        · intro e2 s2 _ hQ
          refine ⟨?_, ?_, ?_, ?_, ?_, ?_, ?_⟩
          · rw [hQ.1, h2]
          · rw [hQ.1, h3]
          · rw [hQ.1, h4]
          · rw [hQ.1, h5]
          · rw [hQ.2, h6]
          · intro x hx; rw [hQ.1]; exact h7 x hx
          · intro x hx; rw [← h1, hsh] at hx; cases hx
  · intro e s1 _ hP
    obtain ⟨h1, h2, h3, h4, h5, h6, h7⟩ := hP
    refine ⟨h2, h3, h4, h5, h6, h7, ?_⟩
    intro x hx; rw [← h1] at hx; exact hx

theorem ensure_shdrs_isSome {s : PState} {v : Unit} {s1 : PState}
    (h : ensure_shdrs s = .ok v s1) : s1.back.ehdr.isSome ∧ s1.back.shdrs.isSome := by
  unfold ensure_shdrs at h
  obtain ⟨a, s2, he, h⟩ := bind_ok h
  have hsome := ensure_ehdr_isSome he
  cases hsh : s2.back.shdrs with
  | some vv =>
    simp only [hsh] at h
    cases h
    exact ⟨hsome, by simp [hsh]⟩
  | none =>
    simp only [hsh] at h
    cases hee : s2.back.ehdr with
    | none => rw [hee] at hsome; cases hsome
    | some e =>
      simp only [hee] at h
      obtain ⟨vv, s3, hr, h⟩ := bind_ok h
      cases h
      have hfr := OnState_of_eq_ok hr (read_elf_sections_frame e s2)
      constructor
      · simp [withShdrs, hfr.1, hee]
      · simp [withShdrs]

theorem Frame2_of_eq {s1 s2 : PState} (hb : s2.back = s1.back) (hf : s2.file = s1.file) :
    Frame2 s1 s2 := by
  refine ⟨by rw [hb], by rw [hb], by rw [hb], by rw [hb], hf, ?_, ?_⟩ <;>
    intro x hx <;> rw [hb] <;> exact hx

theorem Frame3_of_eq {s1 s2 : PState} (hb : s2.back = s1.back) (hf : s2.file = s1.file) :
    Frame3 s1 s2 := by
  refine ⟨by rw [hb], by rw [hb], by rw [hb], hf, ?_, ?_, ?_⟩ <;>
    intro x hx <;> rw [hb] <;> exact hx

theorem Frame3_of2 {s s1 : PState} (h : Frame2 s s1) : Frame3 s s1 := by
  obtain ⟨h1, h2, h3, h4, h5, h6, h7⟩ := h
  exact ⟨h2, h3, h4, h5, h6, h7, fun x hx => by rw [← h1] at hx; exact hx⟩

theorem Frame2_trans {s s1 s2 : PState} (h : Frame2 s s1) (h2 : Frame2 s1 s2) :
    Frame2 s s2 := by
  obtain ⟨a1, a2, a3, a4, a5, a6, a7⟩ := h
  obtain ⟨b1, b2, b3, b4, b5, b6, b7⟩ := h2
  exact ⟨b1.trans a1, b2.trans a2, b3.trans a3, b4.trans a4, b5.trans a5,
    fun x hx => b6 x (a6 x hx), fun x hx => b7 x (a7 x hx)⟩

theorem Frame3_trans {s s1 s2 : PState} (h : Frame3 s s1) (h2 : Frame3 s1 s2) :
    Frame3 s s2 := by
  obtain ⟨a1, a2, a3, a4, a5, a6, a7⟩ := h
  obtain ⟨b1, b2, b3, b4, b5, b6, b7⟩ := h2
  exact ⟨b1.trans a1, b2.trans a2, b3.trans a3, b4.trans a4,
    fun x hx => b5 x (a5 x hx), fun x hx => b6 x (a6 x hx), fun x hx => b7 x (a7 x hx)⟩

theorem ensure_shstrtab_frame (s : PState) :
    OnState (ensure_shstrtab s) (Frame3 s) := by
  unfold ensure_shstrtab
  refine OnState_bind (ensure_shdrs_frame s) ?_ ?_
  · intro a s1 hok hP
    split
    · exact Frame3_of2 hP
    · rename_i hst
      split
      · rename_i e hs hee hsh
        split
        · exact trivial
        · rename_i sec hg
          refine OnState_bind (read_elf_section_raw_frame sec s1) ?_ ?_
          · intro v s2 _ hQ
            refine Frame3_trans (Frame3_of2 hP) ?_
            refine ⟨?_, ?_, ?_, ?_, ?_, ?_, ?_⟩
            · simp [withShstrtab, hQ.1]
            · simp [withShstrtab, hQ.1]
            · simp [withShstrtab, hQ.1]
            · simp [withShstrtab, hQ.2]
            · intro x hx; simp [withShstrtab, hQ.1]; exact hx
            · intro x hx; simp [withShstrtab, hQ.1]; exact hx
            · intro x hx; rw [hst] at hx; cases hx
          · intro e2 s2 _ hQ
            exact Frame3_trans (Frame3_of2 hP) (Frame3_of_eq hQ.1 hQ.2)
      · exact trivial
  · intro e s1 _ hP
    exact Frame3_of2 hP

theorem ensure_shstrtab_isSome {s : PState} {v : Unit} {s1 : PState}
    (h : ensure_shstrtab s = .ok v s1) :
    s1.back.ehdr.isSome ∧ s1.back.shdrs.isSome ∧ s1.back.shstrtab.isSome := by
  unfold ensure_shstrtab at h
  obtain ⟨a, s2, he, h⟩ := bind_ok h
  obtain ⟨he1, he2⟩ := ensure_shdrs_isSome he
  cases hst : s2.back.shstrtab with
  | some vv =>
    simp only [hst] at h
    cases h
    exact ⟨he1, he2, by simp [hst]⟩
  | none =>
    simp only [hst] at h
    cases hee : s2.back.ehdr with
    | none => rw [hee] at he1; cases he1
    | some e =>
      cases hsh : s2.back.shdrs with
      | none => rw [hsh] at he2; cases he2
      | some hs =>
        simp only [hee, hsh] at h
        cases hg : hs.get? e.e_shstrndx with
        | none => simp only [hg] at h; cases h
        | some sec =>
          simp only [hg] at h
          obtain ⟨vv, s3, hr, h⟩ := bind_ok h
          cases h
          have hfr := OnState_of_eq_ok hr (read_elf_section_raw_frame sec s2)
          refine ⟨?_, ?_, ?_⟩
          · simp [withShstrtab, hfr.1, hee]
          · simp [withShstrtab, hfr.1, hsh]
          · simp [withShstrtab]

theorem ensure_ehdr_cached {s : PState} {e : Elf64_Ehdr} (h : s.back.ehdr = some e) :
    ensure_ehdr s = .ok () s := by
  unfold ensure_ehdr
  rw [h]

theorem ensure_shdrs_cached {s : PState} {e : Elf64_Ehdr} {hs : List Elf64_Shdr}
    (h1 : s.back.ehdr = some e) (h2 : s.back.shdrs = some hs) :
    ensure_shdrs s = .ok () s := by
  unfold ensure_shdrs
  rw [ensure_ehdr_cached h1]
  simp only [Out.bind, h2]

theorem ensure_shstrtab_cached {s : PState} {e : Elf64_Ehdr} {hs : List Elf64_Shdr}
    {st : List Nat} (h1 : s.back.ehdr = some e) (h2 : s.back.shdrs = some hs)
    (h3 : s.back.shstrtab = some st) :
    ensure_shstrtab s = .ok () s := by
  unfold ensure_shstrtab
  rw [ensure_shdrs_cached h1 h2]
  simp only [Out.bind, h3]

theorem ensure_symtab_cached {s : PState} {tab : List Elf64_Sym}
    (h : s.back.symtab = some tab) :
    ensure_symtab s = .ok () s := by
  unfold ensure_symtab
  rw [h]
  simp

theorem ensure_strtab_cached {s : PState} {stb : List Nat}
    (h : s.back.strtab = some stb) :
    ensure_strtab s = .ok () s := by
  unfold ensure_strtab
  rw [h]
  simp

theorem get_num_sections_cached {s : PState} {e : Elf64_Ehdr} (h : s.back.ehdr = some e) :
    get_num_sections s = .ok e.e_shnum s := by
  unfold get_num_sections
  rw [ensure_ehdr_cached h]
  simp only [Out.bind, h]

theorem get_num_sections_fill {s : PState} {n : Nat} {s1 : PState}
    (h : get_num_sections s = .ok n s1) :
    ∃ e, s1.back.ehdr = some e ∧ n = e.e_shnum ∧ ensure_ehdr s = .ok () s1 := by
  unfold get_num_sections at h
  obtain ⟨a, s2, he, h⟩ := bind_ok h
  cases hee : s2.back.ehdr with
  | none => simp only [hee] at h; cases h
  | some e =>
    simp only [hee] at h
    cases h
    cases a
    exact ⟨e, hee, rfl, he⟩

theorem check_section_index_fill {i : Nat} {s : PState} {v : Unit} {s1 : PState}
    (h : check_section_index i s = .ok v s1) :
    ∃ e, s1.back.ehdr = some e ∧ i < e.e_shnum ∧ get_num_sections s = .ok e.e_shnum s1 := by
  unfold check_section_index at h
  obtain ⟨n, s2, hn, h⟩ := bind_ok h
  by_cases hle : n ≤ i
  · rw [if_pos hle] at h; cases h
  · rw [if_neg hle] at h
    cases h
    obtain ⟨e, he1, he2, _⟩ := get_num_sections_fill hn
    subst he2
    exact ⟨e, he1, by omega, hn⟩

theorem check_section_index_cached {i : Nat} {s : PState} {e : Elf64_Ehdr}
    (h : s.back.ehdr = some e) :
    check_section_index i s = liftP (checkIdxB i s.back) s := by
  unfold check_section_index checkIdxB numSectionsB
  rw [get_num_sections_cached h, h]
  simp only [Out.bind, POut.bind]
  by_cases hle : e.e_shnum ≤ i
  · rw [if_pos hle, if_pos hle]; rfl
  · rw [if_neg hle, if_neg hle]; rfl

theorem OnState_weaken {α : Type} {o : Out α} {P Q : PState → Prop}
    (h : OnState o P) (himp : ∀ s1, P s1 → Q s1) : OnState o Q := by
  cases o with
  | crash => trivial
  | err e s => exact himp s h
  | ok a s => exact himp s h

theorem Frame2_refl (s : PState) : Frame2 s s := Frame2_of_eq rfl rfl

theorem Frame3_refl (s : PState) : Frame3 s s := Frame3_of_eq rfl rfl

theorem ensure_ehdr_frame2 (s : PState) : OnState (ensure_ehdr s) (Frame2 s) :=
  OnState_weaken (ensure_ehdr_frame s) (fun s1 hP =>
    ⟨hP.2.1, hP.2.2.1, hP.2.2.2.1, hP.2.2.2.2.1, hP.2.2.2.2.2.1, hP.2.2.2.2.2.2,
      fun x hx => by rw [← hP.1] at hx; exact hx⟩)

theorem get_num_sections_frame (s : PState) : OnState (get_num_sections s) (Frame2 s) := by
  unfold get_num_sections
  refine OnState_bind (ensure_ehdr_frame2 s) ?_ ?_
  · intro a s1 _ hP
    split
    · exact trivial
    · exact hP
  · intro e s1 _ hP
    exact hP

theorem check_section_index_frame (i : Nat) (s : PState) :
    OnState (check_section_index i s) (Frame2 s) := by
  unfold check_section_index
  refine OnState_bind (get_num_sections_frame s) ?_ ?_
  · intro n s1 _ hP
    split
    · exact hP
    · exact hP
  · intro e s1 _ hP
    exact hP

theorem read_section_raw_frame (i : Nat) (s : PState) :
    OnState (read_section_raw i s) (Frame2 s) := by
  unfold read_section_raw
  refine OnState_bind (check_section_index_frame i s) ?_ ?_
  · intro a s1 _ hP
    refine OnState_bind (ensure_shdrs_frame s1) ?_ ?_
    · intro a2 s2 _ hQ
      split
      · exact trivial
      · rename_i hs hsh
        split
        · exact trivial
        · rename_i sec hg
          refine OnState_weaken (read_elf_section_raw_frame sec s2) ?_
          intro s3 hR
          exact Frame2_trans (Frame2_trans hP hQ) (Frame2_of_eq hR.1 hR.2)
    · intro e2 s2 _ hQ
      exact Frame2_trans hP hQ
  · intro e s1 _ hP
    exact hP

theorem get_section_size_frame (i : Nat) (s : PState) :
    OnState (get_section_size i s) (Frame2 s) := by
  unfold get_section_size
  refine OnState_bind (check_section_index_frame i s) ?_ ?_
  · intro a s1 _ hP
    refine OnState_bind (ensure_shdrs_frame s1) ?_ ?_
    · intro a2 s2 _ hQ
      split
      · exact trivial
      · split
        · exact trivial
        · exact Frame2_trans hP hQ
    · intro e2 s2 _ hQ
      exact Frame2_trans hP hQ
  · intro e s1 _ hP
    exact hP

theorem section_seek_frame (i : Nat) (s : PState) :
    OnState (section_seek i s) (Frame2 s) := by
  unfold section_seek
  refine OnState_bind (check_section_index_frame i s) ?_ ?_
  · intro a s1 _ hP
    refine OnState_bind (ensure_shdrs_frame s1) ?_ ?_
    · intro a2 s2 _ hQ
      split
      · exact trivial
      · split
        · exact trivial
        · rename_i sec hg
          unfold read_elf_section_seek
          exact Frame2_trans (Frame2_trans hP hQ) (Frame2_of_eq rfl rfl)
    · intro e2 s2 _ hQ
      exact Frame2_trans hP hQ
  · intro e s1 _ hP
    exact hP

theorem section_offset_seek_frame (i o : Nat) (s : PState) :
    OnState (section_offset_seek i o s) (Frame2 s) := by
  unfold section_offset_seek
  refine OnState_bind (check_section_index_frame i s) ?_ ?_
  · intro a s1 _ hP
    refine OnState_bind (ensure_shdrs_frame s1) ?_ ?_
    · intro a2 s2 _ hQ
      split
      · exact trivial
      · split
        · exact trivial
        · rename_i sec hg
          unfold read_elf_section_offset_seek
          split
          · exact Frame2_trans hP hQ
          · exact Frame2_trans (Frame2_trans hP hQ) (Frame2_of_eq rfl rfl)
    · intro e2 s2 _ hQ
      exact Frame2_trans hP hQ
  · intro e s1 _ hP
    exact hP

theorem get_section_name_frame (i : Nat) (s : PState) :
    OnState (get_section_name i s) (Frame3 s) := by
  unfold get_section_name
  refine OnState_bind (check_section_index_frame i s) ?_ ?_
  · intro a s1 _ hP
    refine OnState_bind (ensure_shstrtab_frame s1) ?_ ?_
    · intro a2 s2 _ hQ
      have hPQ := Frame3_trans (Frame3_of2 hP) hQ
      split
      · rename_i hs st hsh hst
        split
        · exact trivial
        · rename_i sec hg
          split
          · exact trivial
          · exact hPQ
          · exact hPQ
      · exact trivial
    · intro e2 s2 _ hQ
      exact Frame3_trans (Frame3_of2 hP) hQ
  · intro e s1 _ hP
    exact Frame3_of2 hP

theorem find_section_from_frame (name : List Nat) (fuel : Nat) :
    ∀ (i : Nat) (s : PState), OnState (find_section_from name i fuel s) (Frame3 s) := by
  induction fuel with
  | zero => intro i s; exact Frame3_refl s
  | succ fuel ih =>
    intro i s
    unfold find_section_from
    have hn := get_section_name_frame i s
    cases hg : get_section_name i s with
    | crash => exact trivial
    | err e s1 => exact trivial
    | ok nm s1 =>
      rw [hg] at hn
      show OnState (if nm = name then Out.ok i s1 else find_section_from name (i + 1) fuel s1)
        (Frame3 s)
      split
      · exact hn
      · exact OnState_weaken (ih (i + 1) s1) (fun s2 hQ => Frame3_trans hn hQ)

theorem find_section_frame (name : List Nat) (s : PState) :
    OnState (find_section name s) (Frame3 s) := by
  unfold find_section
  refine OnState_bind (get_num_sections_frame s) ?_ ?_
  · intro n s1 _ hP
    exact OnState_weaken (find_section_from_frame name n 0 s1)
      (fun s2 hQ => Frame3_trans (Frame3_of2 hP) hQ)
  · intro e s1 _ hP
    exact Frame3_of2 hP

theorem ensure_symtab_frame (s : PState) :
    OnState (ensure_symtab s) (fun s1 =>
      s1.back.strtab = s.back.strtab ∧ s1.file = s.file ∧
      (∀ x, s.back.ehdr = some x → s1.back.ehdr = some x) ∧
      (∀ x, s.back.shdrs = some x → s1.back.shdrs = some x) ∧
      (∀ x, s.back.shstrtab = some x → s1.back.shstrtab = some x) ∧
      (∀ x, s.back.symtab = some x → s1 = s)) := by
  unfold ensure_symtab
  split
  · exact ⟨rfl, rfl, fun x hx => hx, fun x hx => hx, fun x hx => hx, fun x _ => rfl⟩
  · rename_i hnone
    have hsn : s.back.symtab = none := by
      cases hz : s.back.symtab with
      | none => rfl
      | some tab => rw [hz] at hnone; simp at hnone
    refine OnState_bind (find_section_frame dotSymtab s) ?_ ?_
    · intro idx s1 _ hP
      refine OnState_bind (read_section_raw_frame idx s1) ?_ ?_
      · intro raw s2 _ hQ
        have hPQ := Frame3_trans hP (Frame3_of2 hQ)
        split
        · exact ⟨hPQ.2.2.1, hPQ.2.2.2.1, hPQ.2.2.2.2.1, hPQ.2.2.2.2.2.1,
            hPQ.2.2.2.2.2.2, fun x hx => by rw [hsn] at hx; cases hx⟩
        · refine ⟨?_, ?_, ?_, ?_, ?_, ?_⟩
          · simp [withSymtabs, hPQ.2.2.1]
          · simp [withSymtabs, hPQ.2.2.2.1]
          · intro x hx; simp [withSymtabs]; exact hPQ.2.2.2.2.1 x hx
          · intro x hx; simp [withSymtabs]; exact hPQ.2.2.2.2.2.1 x hx
          · intro x hx; simp [withSymtabs]; exact hPQ.2.2.2.2.2.2 x hx
          · intro x hx; rw [hsn] at hx; cases hx
      · intro e2 s2 _ hQ
        have hPQ := Frame3_trans hP (Frame3_of2 hQ)
        exact ⟨hPQ.2.2.1, hPQ.2.2.2.1, hPQ.2.2.2.2.1, hPQ.2.2.2.2.2.1,
          hPQ.2.2.2.2.2.2, fun x hx => by rw [hsn] at hx; cases hx⟩
    · intro e s1 _ hP
      exact ⟨hP.2.2.1, hP.2.2.2.1, hP.2.2.2.2.1, hP.2.2.2.2.2.1,
        hP.2.2.2.2.2.2, fun x hx => by rw [hsn] at hx; cases hx⟩

theorem ensure_strtab_frame (s : PState) :
    OnState (ensure_strtab s) (fun s1 =>
      s1.back.symtab = s.back.symtab ∧ s1.back.symtab_origin = s.back.symtab_origin ∧
      s1.file = s.file ∧
      (∀ x, s.back.ehdr = some x → s1.back.ehdr = some x) ∧
      (∀ x, s.back.shdrs = some x → s1.back.shdrs = some x) ∧
      (∀ x, s.back.shstrtab = some x → s1.back.shstrtab = some x) ∧
      (∀ x, s.back.strtab = some x → s1 = s)) := by
  unfold ensure_strtab
  split
  · exact ⟨rfl, rfl, rfl, fun x hx => hx, fun x hx => hx, fun x hx => hx, fun x _ => rfl⟩
  · rename_i hnone
    have hsn : s.back.strtab = none := by
      cases hz : s.back.strtab with
      | none => rfl
      | some stb => rw [hz] at hnone; simp at hnone
    refine OnState_bind (find_section_frame dotStrtab s) ?_ ?_
    · intro idx s1 _ hP
      refine OnState_bind (read_section_raw_frame idx s1) ?_ ?_
      · intro raw s2 _ hQ
        have hPQ := Frame3_trans hP (Frame3_of2 hQ)
        refine ⟨?_, ?_, ?_, ?_, ?_, ?_, ?_⟩
        · simp [withStrtab, hPQ.1]
        · simp [withStrtab, hPQ.2.1]
        · simp [withStrtab, hPQ.2.2.2.1]
        · intro x hx; simp [withStrtab]; exact hPQ.2.2.2.2.1 x hx
        · intro x hx; simp [withStrtab]; exact hPQ.2.2.2.2.2.1 x hx
        · intro x hx; simp [withStrtab]; exact hPQ.2.2.2.2.2.2 x hx
        · intro x hx; rw [hsn] at hx; cases hx
      · intro e2 s2 _ hQ
        have hPQ := Frame3_trans hP (Frame3_of2 hQ)
        exact ⟨hPQ.1, hPQ.2.1, hPQ.2.2.2.1, hPQ.2.2.2.2.1, hPQ.2.2.2.2.2.1,
          hPQ.2.2.2.2.2.2, fun x hx => by rw [hsn] at hx; cases hx⟩
    · intro e s1 _ hP
      exact ⟨hP.1, hP.2.1, hP.2.2.2.1, hP.2.2.2.2.1, hP.2.2.2.2.2.1,
        hP.2.2.2.2.2.2, fun x hx => by rw [hsn] at hx; cases hx⟩

theorem ensure_symtab_isSome {s : PState} {v : Unit} {s1 : PState}
    (h : ensure_symtab s = .ok v s1) : s1.back.symtab.isSome := by
  unfold ensure_symtab at h
  split at h
  · rename_i hsome
    cases h
    exact hsome
  · obtain ⟨idx, sa, hfind, h⟩ := bind_ok h
    obtain ⟨raw, sb, hraw, h⟩ := bind_ok h
    split at h
    · cases h
    · cases h
      simp [withSymtabs]

theorem ensure_strtab_isSome {s : PState} {v : Unit} {s1 : PState}
    (h : ensure_strtab s = .ok v s1) : s1.back.strtab.isSome := by
  unfold ensure_strtab at h
  split at h
  · rename_i hsome
    cases h
    exact hsome
  · obtain ⟨idx, sa, hfind, h⟩ := bind_ok h
    obtain ⟨raw, sb, hraw, h⟩ := bind_ok h
    cases h
    simp [withStrtab]

theorem ensure_symtab_fill {s : PState} {v : Unit} {s1 : PState}
    (hn : s.back.symtab = none) (h : ensure_symtab s = .ok v s1) :
    ∃ i sa raw sb,
      find_section dotSymtab s = .ok i sa ∧
      read_section_raw i sa = .ok raw sb ∧
      raw.length % 24 = 0 ∧
      s1 = withSymtabs sb (sortSyms (decodeSyms raw (raw.length / 24)))
        (decodeSyms raw (raw.length / 24)) := by
  unfold ensure_symtab at h
  split at h
  · rename_i hsome
    rw [hn] at hsome
    cases hsome
  · obtain ⟨i, sa, hfind, h⟩ := bind_ok h
    obtain ⟨raw, sb, hraw, h⟩ := bind_ok h
    split at h
    · cases h
    · rename_i hmod
      cases h
      exact ⟨i, sa, raw, sb, hfind, hraw, by omega, rfl⟩

theorem insertSym_length (x : Elf64_Sym) (l : List Elf64_Sym) :
    (insertSym x l).length = l.length + 1 := by
  induction l with
  | nil => rfl
  | cons y ys ih =>
    unfold insertSym
    split
    · simp
    · simp [ih]

theorem sortSyms_length (l : List Elf64_Sym) : (sortSyms l).length = l.length := by
  induction l with
  | nil => rfl
  | cons x xs ih =>
    unfold sortSyms
    rw [insertSym_length, ih]
    simp

theorem mem_insertSym {a x : Elf64_Sym} {l : List Elf64_Sym} :
    a ∈ insertSym x l ↔ a = x ∨ a ∈ l := by
  induction l with
  | nil => simp [insertSym]
  | cons y ys ih =>
    unfold insertSym
    split
    · simp only [List.mem_cons]
    · simp only [List.mem_cons, ih]
      tauto

theorem insertSym_pairwise {x : Elf64_Sym} {l : List Elf64_Sym}
    (h : List.Pairwise (fun p q => p.st_value ≤ q.st_value) l) :
    List.Pairwise (fun p q => p.st_value ≤ q.st_value) (insertSym x l) := by
  induction l with
  | nil => simp [insertSym]
  | cons y ys ih =>
    unfold insertSym
    rcases List.pairwise_cons.mp h with ⟨hy, hys⟩
    split
    · rename_i hle
      refine List.pairwise_cons.mpr ⟨?_, h⟩
      intro b hb
      rcases List.mem_cons.mp hb with hb | hb
      · subst hb; exact hle
      · exact Nat.le_trans hle (hy b hb)
    · rename_i hgt
      refine List.pairwise_cons.mpr ⟨?_, ih hys⟩
      intro b hb
      rcases mem_insertSym.mp hb with hb | hb
      · subst hb; omega
      · exact hy b hb

theorem sortSyms_pairwise (l : List Elf64_Sym) :
    List.Pairwise (fun p q => p.st_value ≤ q.st_value) (sortSyms l) := by
  induction l with
  | nil => simp [sortSyms]
  | cons x xs ih => exact insertSym_pairwise ih

theorem insertSym_filter_true {x : Elf64_Sym} {q : Elf64_Sym → Bool} (l : List Elf64_Sym)
    (hqx : q x = true) (hv : ∀ y, q y = true → y.st_value = x.st_value) :
    (insertSym x l).filter q = x :: l.filter q := by
  induction l with
  | nil => simp [insertSym, hqx]
  | cons y ys ih =>
    unfold insertSym
    split
    · simp [List.filter_cons, hqx]
    · rename_i hgt
      have hqy : q y = false := by
        cases hqy2 : q y
        · rfl
        · exfalso
          have := hv y hqy2
          omega
      simp [List.filter_cons, hqy, ih]

theorem insertSym_filter_false {x : Elf64_Sym} {q : Elf64_Sym → Bool} (l : List Elf64_Sym)
    (hqx : q x = false) :
    (insertSym x l).filter q = l.filter q := by
  induction l with
  | nil => simp [insertSym, hqx]
  | cons y ys ih =>
    unfold insertSym
    split
    · simp [List.filter_cons, hqx]
    · cases hqy : q y <;> simp [List.filter_cons, hqy, ih]

theorem sortSyms_filter {q : Elf64_Sym → Bool}
    (hv : ∀ y z, q y = true → q z = true → y.st_value = z.st_value) :
    ∀ l, (sortSyms l).filter q = l.filter q := by
  intro l
  induction l with
  | nil => rfl
  | cons x xs ih =>
    show (insertSym x (sortSyms xs)).filter q = (x :: xs).filter q
    cases hqx : q x with
    | true =>
      rw [insertSym_filter_true _ hqx (fun y hy => hv y x hy hqx), ih]
      simp [List.filter_cons, hqx]
    | false =>
      rw [insertSym_filter_false _ hqx, ih]
      simp [List.filter_cons, hqx]

/-- Claim C3 (corrected): filling the symbol-table cache does not fill the
string-table cache.  `ensure_symtab` leaves the `strtab` cache exactly as it
was, and when the string table has not been loaded by some other operation a
subsequent `get_symbol_name` panics on the `unwrap` of the missing cache
(for every index: out-of-range indexes panic on the table index first). -/
theorem claim3_symtab_fill_not_strtab (s : PState) (v : Unit) (s1 : PState)
    (h : ensure_symtab s = .ok v s1) :
    s1.back.strtab = s.back.strtab ∧
    (s.back.strtab = none → ∀ idx, get_symbol_name idx s1 = .crash) := by
  have hfr := OnState_of_eq_ok h (ensure_symtab_frame s)
  refine ⟨hfr.1, ?_⟩
  intro hnone idx
  have hst : s1.back.strtab = none := by rw [hfr.1]; exact hnone
  have hsym := ensure_symtab_isSome h
  cases htab : s1.back.symtab with
  | none => rw [htab] at hsym; cases hsym
  | some tab =>
    unfold get_symbol_name get_symbol
    rw [ensure_symtab_cached htab]
    simp only [Out.bind, htab]
    cases hg : tab.get? idx with
    | none => simp only [hg, Out.bind]
    | some sym => simp only [hg, hst, Out.bind]

/-- Claim C3, counterexample to the claim as stated: on the well-formed test
image, `get_num_symbols` succeeds (so the symtab fill has been triggered and
succeeded), yet the strtab cache is still unpopulated and `symbol_name(0)`
(a valid index, the table has three entries) panics. -/
theorem claim3_counterexample :
    get_num_symbols goodS0 = .ok 3 goodSymS ∧
    goodSymS.back.strtab = none ∧
    get_symbol_name 0 goodSymS = .crash := by
  refine ⟨by decide, by decide, by decide⟩

/-- Claim C3, witness for the corrected statement at the test image. -/
theorem claim3_witness :
    goodEnsS.back.strtab = goodS0.back.strtab ∧ get_symbol_name 0 goodEnsS = .crash := by
  have h := claim3_symtab_fill_not_strtab goodS0 () goodEnsS (by decide)
  exact ⟨h.1, h.2 rfl 0⟩

/-- Claim C4: every successful load of the symbol table stores the
file-order decode of the raw `.symtab` bytes (preserving the on-disk order)
together with its stable sort by `st_value`; and for every file-order table
the sorted view is monotonic non-decreasing in `st_value` under index
order, while for every value the subsequence of symbols with that value
equals the file-order subsequence (ties keep ascending file-order). -/
theorem claim4_sorted_view :
    (∀ s v s1, s.back.symtab = none → ensure_symtab s = .ok v s1 →
      ∃ i sa raw sb,
        find_section dotSymtab s = .ok i sa ∧
        read_section_raw i sa = .ok raw sb ∧
        raw.length % 24 = 0 ∧
        s1 = withSymtabs sb (sortSyms (decodeSyms raw (raw.length / 24)))
          (decodeSyms raw (raw.length / 24))) ∧
    (∀ orig : List Elf64_Sym,
      (∀ a b (ha : a < (sortSyms orig).length) (hb : b < (sortSyms orig).length), a < b →
        ((sortSyms orig).get ⟨a, ha⟩).st_value ≤ ((sortSyms orig).get ⟨b, hb⟩).st_value) ∧
      (∀ v2, (sortSyms orig).filter (fun sym => sym.st_value == v2) =
        orig.filter (fun sym => sym.st_value == v2))) := by
  constructor
  · intro s v s1 hn h
    exact ensure_symtab_fill hn h
  · intro orig
    constructor
    · intro a b ha hb hab
      exact List.pairwise_iff_get.mp (sortSyms_pairwise _) ⟨a, ha⟩ ⟨b, hb⟩ hab
    · intro v2
      refine sortSyms_filter ?_ _
      intro y z hy hz
      simp only [beq_iff_eq] at hy hz
      omega

/-- Claim C4, witness at the test image: the value-100 run of the stable
sort keeps the file order of the aliases `foo` and `bar`, and the fill on
the test image succeeds and populates the sorted cache. -/
theorem claim4_witness :
    (sortSyms wTab).filter (fun sym => sym.st_value == 100) =
      wTab.filter (fun sym => sym.st_value == 100) ∧
    goodEnsS.back.symtab.isSome := by
  refine ⟨(claim4_sorted_view.2 wTab).2 100, ?_⟩
  obtain ⟨i, sa, raw, sb, hf, hr, hm, hdef⟩ :=
    claim4_sorted_view.1 goodS0 () goodEnsS rfl (by decide)
  rw [hdef]
  simp [withSymtabs]

/-- Claim C5: when the `.symtab` section size is not a multiple of the
24-byte record size, the load fails with `InvalidData`, and every operation
that depends on the symbol table propagates exactly that error. -/
theorem claim5_symtab_size (s : PState) (i : Nat) (s1 : PState) (raw : List Nat) (s2 : PState)
    (hn : s.back.symtab = none)
    (hfind : find_section dotSymtab s = .ok i s1)
    (hraw : read_section_raw i s1 = .ok raw s2)
    (hmod : raw.length % 24 ≠ 0) :
    ensure_symtab s = .err .invalidData s2 ∧
    get_num_symbols s = .err .invalidData s2 ∧
    (∀ idx, get_symbol idx s = .err .invalidData s2 ∧
      get_symbol_origin idx s = .err .invalidData s2 ∧
      get_symbol_name idx s = .err .invalidData s2) ∧
    (∀ a t, find_symbol a t s = .err .invalidData s2) := by
  have hens : ensure_symtab s = .err .invalidData s2 := by
    unfold ensure_symtab
    rw [if_neg (by rw [hn]; simp)]
    rw [hfind]
    simp only [Out.bind]
    rw [hraw]
    simp only [Out.bind]
    rw [if_pos hmod]
  refine ⟨hens, ?_, ?_, ?_⟩
  · unfold get_num_symbols
    rw [hens]
    rfl
  · intro idx
    refine ⟨?_, ?_, ?_⟩
    · unfold get_symbol
      rw [hens]
      rfl
    · unfold get_symbol_origin
      rw [hens]
      rfl
    · unfold get_symbol_name get_symbol
      rw [hens]
      rfl
  · intro a t
    unfold find_symbol
    rw [hens]
    rfl

/-- Claim C5, witness at the misaligned test image (`.symtab` size 70). -/
theorem claim5_witness :
    ensure_symtab badSizeS0 = .err .invalidData badSizeS2 ∧
    get_num_symbols badSizeS0 = .err .invalidData badSizeS2 ∧
    find_symbol 100 2 badSizeS0 = .err .invalidData badSizeS2 := by
  have h := claim5_symtab_size badSizeS0 1 badSizeS1 badSizeRaw badSizeS2 (by decide)
    (by decide) (by decide) (by decide)
  exact ⟨h.1, h.2.1, h.2.2.2 100 2⟩

/-- Claim C6 (corrected): every section operation given an out-of-range
section index fails with `InvalidInput` (in the state left by the section
count lookup), and `section_offset_seek` with an offset at or past the
section size fails with `InvalidInput`; but the symbol accessors do not
check their index: an index at or past `num_symbols()` makes `get_symbol`,
`get_symbol_origin` and `get_symbol_name` panic instead of returning an
error. -/
theorem claim6_out_of_range (s : PState) :
    (∀ i o n s1, get_num_sections s = .ok n s1 → n ≤ i →
      get_section_name i s = .err .invalidInput s1 ∧
      get_section_size i s = .err .invalidInput s1 ∧
      read_section_raw i s = .err .invalidInput s1 ∧
      section_seek i s = .err .invalidInput s1 ∧
      section_offset_seek i o s = .err .invalidInput s1) ∧
    (∀ i o sz s2, get_section_size i s = .ok sz s2 → sz ≤ o →
      section_offset_seek i o s = .err .invalidInput s2) ∧
    (∀ idx n s1, originLenInv s → get_num_symbols s = .ok n s1 → n ≤ idx →
      get_symbol idx s = .crash ∧ get_symbol_origin idx s = .crash ∧
      get_symbol_name idx s = .crash) := by
  refine ⟨?_, ?_, ?_⟩
  · intro i o n s1 h hle
    have hchk : check_section_index i s = .err .invalidInput s1 := by
      unfold check_section_index
      rw [h]
      simp only [Out.bind]
      rw [if_pos hle]
    refine ⟨?_, ?_, ?_, ?_, ?_⟩ <;>
      [unfold get_section_name; unfold get_section_size; unfold read_section_raw;
        unfold section_seek; unfold section_offset_seek] <;>
      rw [hchk] <;> rfl
  · intro i o sz s2 h hle
    unfold get_section_size at h
    obtain ⟨a, sa, hchk, h⟩ := bind_ok h
    obtain ⟨a2, sb, hsh, h⟩ := bind_ok h
    cases hhs : sb.back.shdrs with
    | none => simp only [hhs] at h; cases h
    | some hs =>
      simp only [hhs] at h
      cases hg : hs.get? i with
      | none => simp only [hg] at h; cases h
      | some sec =>
        simp only [hg] at h
        cases h
        cases a
        cases a2
        unfold section_offset_seek
        rw [hchk]
        simp only [Out.bind]
        rw [hsh]
        simp only [Out.bind, hhs, hg]
        unfold read_elf_section_offset_seek
        rw [if_pos hle]
  · intro idx n s1 hinv h hle
    unfold get_num_symbols at h
    obtain ⟨a, sa, hens, h⟩ := bind_ok h
    cases htab : sa.back.symtab with
    | none => simp only [htab] at h; cases h
    | some tab =>
      simp only [htab] at h
      cases h
      cases a
      have hget : tab.get? idx = none := List.get?_eq_none.mpr hle
      refine ⟨?_, ?_, ?_⟩
      · unfold get_symbol
        rw [hens]
        simp only [Out.bind, htab, hget]
      · unfold get_symbol_origin
        rw [hens]
        simp only [Out.bind]
        cases horig : s1.back.symtab_origin with
        | none => rfl
        | some orig =>
          have hlen : orig.length = tab.length := by
            cases hcase : s.back.symtab with
            | some tab0 =>
              have hfr := OnState_of_eq_ok hens (ensure_symtab_frame s)
              have hid : s1 = s := hfr.2.2.2.2.2 tab0 hcase
              subst hid
              exact hinv tab orig htab horig
            | none =>
              obtain ⟨i2, sa2, raw, sb2, _, _, _, hdef⟩ := ensure_symtab_fill hcase hens
              subst hdef
              simp only [withSymtabs] at htab horig
              cases htab
              cases horig
              exact (sortSyms_length _).symm
          have : orig.get? idx = none := List.get?_eq_none.mpr (by omega)
          simp only [this]
      · unfold get_symbol_name get_symbol
        rw [hens]
        simp only [Out.bind, htab, hget]

/-- Claim C6, counterexample to the claim as stated: on the well-formed
image `num_symbols()` is 3, and `get_symbol 3` panics (vector index out of
range) instead of failing with `InvalidInput`. -/
theorem claim6_counterexample :
    get_num_symbols goodS0 = .ok 3 goodSymS ∧ get_symbol 3 goodS0 = .crash := by
  exact ⟨by decide, by decide⟩

/-- Claim C6, witness at the well-formed image: an out-of-range section
index yields `InvalidInput`, an offset equal to the section size yields
`InvalidInput`, and an out-of-range symbol index panics. -/
theorem claim6_witness :
    get_section_name 5 goodS0 = .err .invalidInput goodNumS ∧
    section_offset_seek 0 26 goodS0 = .err .invalidInput goodSizeS ∧
    get_symbol 3 goodS0 = .crash := by
  have h := claim6_out_of_range goodS0
  refine ⟨(h.1 5 0 3 goodNumS (by decide) (by decide)).1,
    h.2.1 0 26 26 goodSizeS (by decide) (by decide), ?_⟩
  have hinv : originLenInv goodS0 := by
    intro tab orig h1 h2
    rw [show goodS0.back.symtab = none from rfl] at h1
    cases h1
  exact (h.2.2 3 3 goodSymS hinv (by decide) (by decide)).1

theorem get_section_name_cached {s : PState} {e : Elf64_Ehdr} {hs : List Elf64_Shdr}
    {st : List Nat} (h1 : s.back.ehdr = some e) (h2 : s.back.shdrs = some hs)
    (h3 : s.back.shstrtab = some st) (i : Nat) :
    get_section_name i s = liftP (sectionNameB i s.back) s := by
  unfold get_section_name sectionNameB
  rw [check_section_index_cached h1]
  cases hB : checkIdxB i s.back with
  | crash => simp only [liftP, Out.bind, POut.bind]
  | err e2 => simp only [liftP, Out.bind, POut.bind]
  | ok a =>
    simp only [liftP, Out.bind, POut.bind]
    rw [ensure_shstrtab_cached h1 h2 h3]
    simp only [Out.bind, h2, h3]
    cases hg : hs.get? i with
    | none => rfl
    | some sec => cases hx : extract_string st sec.sh_name <;> simp [hx, liftP]

theorem sectionNameB_congr {b b2 : Back} (i : Nat)
    (h1 : b2.ehdr = b.ehdr) (h2 : b2.shdrs = b.shdrs) (h3 : b2.shstrtab = b.shstrtab) :
    sectionNameB i b2 = sectionNameB i b := by
  unfold sectionNameB checkIdxB numSectionsB
  rw [h1, h2, h3]

theorem get_section_name_fill {i : Nat} {s : PState} {nm : List Nat} {s1 : PState}
    (h : get_section_name i s = .ok nm s1) :
    ∃ e hs st, s1.back.ehdr = some e ∧ s1.back.shdrs = some hs ∧
      s1.back.shstrtab = some st ∧ i < e.e_shnum ∧ sectionNameB i s1.back = .ok nm := by
  unfold get_section_name at h
  obtain ⟨a, sa, hchk, h⟩ := bind_ok h
  obtain ⟨a2, sb, hsst, h⟩ := bind_ok h
  cases hhs : sb.back.shdrs with
  | none =>
    cases hst : sb.back.shstrtab <;> simp only [hhs, hst] at h <;> cases h
  | some hs =>
    cases hst : sb.back.shstrtab with
    | none => simp only [hhs, hst] at h; cases h
    | some st =>
      simp only [hhs, hst] at h
      cases hg : hs.get? i with
      | none => simp only [hg] at h; cases h
      | some sec =>
        simp only [hg] at h
        cases hx : extract_string st sec.sh_name with
        | crash => simp only [hx] at h; cases h
        | invalid => simp only [hx] at h; cases h
        | ok nm2 =>
          simp only [hx] at h
          cases h
          obtain ⟨e, hea, hlt, _⟩ := check_section_index_fill hchk
          have hfr := OnState_of_eq_ok hsst (ensure_shstrtab_frame sa)
          have hee : s1.back.ehdr = some e := hfr.2.2.2.2.1 e hea
          refine ⟨e, hs, st, hee, hhs, hst, hlt, ?_⟩
          unfold sectionNameB checkIdxB numSectionsB
          simp only [hee, hhs, hst, POut.bind]
          rw [if_neg (by omega)]
          simp only [POut.bind, hg, hx]

theorem find_from_ok {name : List Nat} :
    ∀ {fuel i : Nat} {s : PState} {j : Nat} {s1 : PState},
    find_section_from name i fuel s = .ok j s1 →
    get_section_name j s1 = .ok name s1 ∧
    (∀ k, i ≤ k → k < j → ∃ nm2, get_section_name k s1 = .ok nm2 s1 ∧ nm2 ≠ name) := by
  intro fuel
  induction fuel with
  | zero => intro i s j s1 h; cases h
  | succ fuel ih =>
    intro i s j s1 h
    unfold find_section_from at h
    cases hg : get_section_name i s with
    | crash => simp only [hg] at h; cases h
    | err e2 s2 => simp only [hg] at h; cases h
    | ok nm s2 =>
      simp only [hg] at h
      split at h
      · rename_i hname
        cases h
        subst hname
        obtain ⟨e, hs, st, he1, he2, he3, hlt, hB⟩ := get_section_name_fill hg
        refine ⟨?_, ?_⟩
        · rw [get_section_name_cached he1 he2 he3, hB]
          rfl
        · intro k hk1 hk2
          omega
      · rename_i hname
        obtain ⟨hfound, hrest⟩ := ih h
        refine ⟨hfound, ?_⟩
        intro k hk1 hk2
        by_cases hki : k = i
        · subst hki
          obtain ⟨e, hs, st, he1, he2, he3, hlt, hB⟩ := get_section_name_fill hg
          have hfr : Frame3 s2 s1 := OnState_of_eq_ok h (find_section_from_frame name fuel (k + 1) s2)
          have hb1 : s1.back.ehdr = some e := hfr.2.2.2.2.1 e he1
          have hb2 : s1.back.shdrs = some hs := hfr.2.2.2.2.2.1 hs he2
          have hb3 : s1.back.shstrtab = some st := hfr.2.2.2.2.2.2 st he3
          refine ⟨nm, ?_, hname⟩
          rw [get_section_name_cached hb1 hb2 hb3,
            sectionNameB_congr k (hb1.trans he1.symm) (hb2.trans he2.symm)
              (hb3.trans he3.symm), hB]
          rfl
        · exact hrest k (by omega) hk2

theorem find_from_err {name : List Nat} :
    ∀ {fuel i : Nat} {s : PState} {e : ErrKind} {s1 : PState},
    find_section_from name i fuel s = .err e s1 →
    e = .notFound ∧
    (∀ k, i ≤ k → k < i + fuel → ∃ nm2, get_section_name k s1 = .ok nm2 s1 ∧ nm2 ≠ name) := by
  intro fuel
  induction fuel with
  | zero =>
    intro i s e s1 h
    cases h
    exact ⟨rfl, by intro k hk1 hk2; omega⟩
  | succ fuel ih =>
    intro i s e s1 h
    unfold find_section_from at h
    cases hg : get_section_name i s with
    | crash => simp only [hg] at h; cases h
    | err e2 s2 => simp only [hg] at h; cases h
    | ok nm s2 =>
      simp only [hg] at h
      split at h
      · cases h
      · rename_i hname
        obtain ⟨he, hrest⟩ := ih h
        refine ⟨he, ?_⟩
        intro k hk1 hk2
        by_cases hki : k = i
        · subst hki
          obtain ⟨e3, hs, st, he1, he2, he3, hlt, hB⟩ := get_section_name_fill hg
          have hfr : Frame3 s2 s1 := OnState_of_eq_err h (find_section_from_frame name fuel (k + 1) s2)
          have hb1 : s1.back.ehdr = some e3 := hfr.2.2.2.2.1 e3 he1
          have hb2 : s1.back.shdrs = some hs := hfr.2.2.2.2.2.1 hs he2
          have hb3 : s1.back.shstrtab = some st := hfr.2.2.2.2.2.2 st he3
          refine ⟨nm, ?_, hname⟩
          rw [get_section_name_cached hb1 hb2 hb3,
            sectionNameB_congr k (hb1.trans he1.symm) (hb2.trans he2.symm)
              (hb3.trans he3.symm), hB]
          rfl
        · exact hrest k (by omega) (by omega)

/-- Claim C7 (corrected): when `find_section(name)` returns `Ok(i)`, `i` is
the smallest section index whose name equals `name` (every smaller index has
a section name that extracts successfully and differs), and when it returns
an error the error is either the propagated section-count failure or
`NotFound` with no section of that name; but the lookup is not panic-free:
`find_section` unwraps every intermediate name lookup, so it panics when a
section before the first match has an invalid name (see the
counterexample). -/
theorem claim7_find_section (name : List Nat) (s : PState) :
    (∀ i s1, find_section name s = .ok i s1 →
      get_section_name i s1 = .ok name s1 ∧
      (∀ j, j < i → ∃ nm2, get_section_name j s1 = .ok nm2 s1 ∧ nm2 ≠ name)) ∧
    (∀ e s1, find_section name s = .err e s1 →
      get_num_sections s = .err e s1 ∨
      (e = .notFound ∧
        ∃ n s0, get_num_sections s = .ok n s0 ∧
          (∀ j, j < n → ∃ nm2, get_section_name j s1 = .ok nm2 s1 ∧ nm2 ≠ name))) := by
  constructor
  · intro i s1 h
    unfold find_section at h
    obtain ⟨n, s0, hn, h⟩ := bind_ok h
    obtain ⟨hfound, hrest⟩ := find_from_ok h
    exact ⟨hfound, fun j hj => hrest j (Nat.zero_le j) hj⟩
  · intro e s1 h
    unfold find_section at h
    rcases bind_err h with h | ⟨n, s0, hn, h⟩
    · exact Or.inl h
    · obtain ⟨he, hrest⟩ := find_from_err h
      exact Or.inr ⟨he, n, s0, hn, fun j hj => hrest j (Nat.zero_le j) (by omega)⟩

/-- Claim C7, counterexample to the panic-freedom part of the claim: on the
image whose section 0 has an out-of-bounds name offset, section 1 is validly
named `".symtab"`, yet `find_section ".symtab"` panics on the unwrap of the
failed name extraction of section 0 instead of returning `Ok(1)`. -/
theorem claim7_counterexample :
    find_section dotSymtab badNameS0 = .crash ∧
    get_section_name 1 badNameS0 = .ok dotSymtab badNameS1 := by
  exact ⟨by decide, by decide⟩

/-- Claim C7, witness: on the well-formed image `find_section ".strtab"`
returns index 2, whose name is `".strtab"`. -/
theorem claim7_witness :
    get_section_name 2 fsStrS = .ok dotStrtab fsStrS :=
  ((claim7_find_section dotStrtab goodS0).1 2 fsStrS (by decide)).1

theorem searchFrom_spec (a : Nat) (key : Elf64_Sym → Option Nat) :
    ∀ (l : List Elf64_Sym) (i : Nat) (best : Option (Nat × Nat)),
    (∀ j0 k0, best = some (j0, k0) → k0 ≤ a ∧ j0 < i) →
    (searchFrom a key l i best = none →
      best = none ∧ ∀ sym ∈ l, ∀ k, key sym = some k → a < k) ∧
    (∀ j k, searchFrom a key l i best = some (j, k) →
      k ≤ a ∧
      ((best = some (j, k) ∧ j < i) ∨
        ∃ off sym, l.get? off = some sym ∧ j = i + off ∧ key sym = some k) ∧
      (∀ sym ∈ l, ∀ kk, key sym = some kk → kk ≤ a → kk ≤ k) ∧
      (∀ j0 k0, best = some (j0, k0) → k0 ≤ k) ∧
      (∀ off sym, l.get? off = some sym → j < i + off →
        ∀ kk, key sym = some kk → kk ≤ a → kk < k)) := by
  intro l
  induction l with
  | nil =>
    intro i best pre
    constructor
    · intro h
      exact ⟨h, by intro sym hsym; simp at hsym⟩
    · intro j k h
      have hb : best = some (j, k) := h
      refine ⟨(pre j k hb).1, Or.inl ⟨hb, (pre j k hb).2⟩, ?_, ?_, ?_⟩
      · intro sym hsym; simp at hsym
      · intro j0 k0 h0
        rw [hb] at h0
        cases h0
        exact Nat.le_refl k
      · intro off sym hget
        simp at hget
  | cons sym0 rest ih =>
    intro i best pre
    have hupd : (updBest a key sym0 i best = best ∧
        ∀ kk, key sym0 = some kk → kk ≤ a →
          ∃ j0 k0, best = some (j0, k0) ∧ kk < k0) ∨
        (∃ kk, key sym0 = some kk ∧ kk ≤ a ∧ updBest a key sym0 i best = some (i, kk) ∧
          ∀ j0 k0, best = some (j0, k0) → k0 ≤ kk) := by
      cases hb : best with
      | none =>
        cases hk : key sym0 with
        | none =>
          left
          refine ⟨by simp [updBest, hk], ?_⟩
          intro kk hkk
          cases hkk
        | some kk =>
          by_cases hka : kk ≤ a
          · right
            exact ⟨kk, rfl, hka, by simp [updBest, hk, hka], by intro j0 k0 h0; cases h0⟩
          · left
            refine ⟨by simp [updBest, hk, hka], ?_⟩
            intro kk2 hkk2 hka2
            cases hkk2
            exact absurd hka2 hka
      | some jb =>
        obtain ⟨j0, bk⟩ := jb
        cases hk : key sym0 with
        | none =>
          left
          refine ⟨by simp [updBest, hk], ?_⟩
          intro kk hkk
          cases hkk
        | some kk =>
          by_cases hcond : kk ≤ a ∧ bk ≤ kk
          · right
            refine ⟨kk, rfl, hcond.1, by simp [updBest, hk, hcond], ?_⟩
            intro j1 k1 h1
            cases h1
            exact hcond.2
          · left
            refine ⟨by simp [updBest, hk, hcond], ?_⟩
            intro kk2 hkk2 hka2
            cases hkk2
            refine ⟨j0, bk, rfl, ?_⟩
            omega
    have hpre2 : ∀ j0 k0, updBest a key sym0 i best = some (j0, k0) → k0 ≤ a ∧ j0 < i + 1 := by
      intro j0 k0 h0
      rcases hupd with ⟨heq, _⟩ | ⟨kk, hkey, hka, hb2, _⟩
      · rw [heq] at h0
        exact ⟨(pre j0 k0 h0).1, by have := (pre j0 k0 h0).2; omega⟩
      · rw [hb2] at h0
        cases h0
        exact ⟨hka, by omega⟩
    obtain ⟨ihnone, ihsome⟩ := ih (i + 1) (updBest a key sym0 i best) hpre2
    have hstep : searchFrom a key (sym0 :: rest) i best =
        searchFrom a key rest (i + 1) (updBest a key sym0 i best) := rfl
    constructor
    · intro h
      rw [hstep] at h
      obtain ⟨hb2none, hrest⟩ := ihnone h
      rcases hupd with ⟨heq, hprem⟩ | ⟨kk, hkey, hka, hb2, _⟩
      · rw [heq] at hb2none
        refine ⟨hb2none, ?_⟩
        intro sym hmem k hk
        rcases List.mem_cons.mp hmem with hmem | hmem
        · subst hmem
          by_contra hlt
          push_neg at hlt
          obtain ⟨j0, k0, hb0, _⟩ := hprem k hk hlt
          rw [hb2none] at hb0
          cases hb0
        · exact hrest sym hmem k hk
      · rw [hb2] at hb2none
        cases hb2none
    · intro j k h
      rw [hstep] at h
      obtain ⟨hk_le, hsrc, hmax, hbmono, hafter⟩ := ihsome j k h
      refine ⟨hk_le, ?_, ?_, ?_, ?_⟩
      · rcases hsrc with ⟨hb2, hj⟩ | ⟨off, sym, hget, hj, hkey⟩
        · rcases hupd with ⟨heq, _⟩ | ⟨kk, hkey0, hka0, hb2e, _⟩
          · rw [heq] at hb2
            exact Or.inl ⟨hb2, (pre j k hb2).2⟩
          · rw [hb2e] at hb2
            cases hb2
            exact Or.inr ⟨0, sym0, rfl, by omega, hkey0⟩
        · exact Or.inr ⟨off + 1, sym, hget, by omega, hkey⟩
      · intro sym hmem kk hkey hkka
        rcases List.mem_cons.mp hmem with hmem | hmem
        · subst hmem
          rcases hupd with ⟨heq, hprem⟩ | ⟨kk0, hkey0, hka0, hb2, hmono0⟩
          · obtain ⟨j0, k0, hb0, hlt0⟩ := hprem kk hkey hkka
            have : k0 ≤ k := hbmono j0 k0 (by rw [heq]; exact hb0)
            omega
          · rw [hkey0] at hkey
            cases hkey
            exact hbmono _ _ hb2
        · exact hmax sym hmem kk hkey hkka
      · intro j0 k0 h0
        rcases hupd with ⟨heq, _⟩ | ⟨kk, hkey0, hka0, hb2, hmono0⟩
        · exact hbmono j0 k0 (by rw [heq]; exact h0)
        · exact Nat.le_trans (hmono0 j0 k0 h0) (hbmono i kk hb2)
      · intro off sym hget hjlt kk hkey hkka
        cases off with
        | zero =>
          have hsym0 : sym = sym0 := by
            simp at hget
            exact hget.symm
          subst hsym0
          have hji : j < i := by omega
          rcases hsrc with ⟨hb2, hj⟩ | ⟨off2, sym2, hget2, hj2, hkey2⟩
          · rcases hupd with ⟨heq, hprem⟩ | ⟨kk0, hkey0, hka0, hb2e, _⟩
            · obtain ⟨j0, k0, hb0, hlt0⟩ := hprem kk hkey hkka
              rw [heq, hb0] at hb2
              cases hb2
              exact hlt0
            · rw [hb2e] at hb2
              cases hb2
              omega
          · omega
        | succ off2 =>
          exact hafter off2 sym hget (by omega) kk hkey hkka

theorem symKey_eq_some {t : Nat} {sym : Elf64_Sym} {k : Nat} :
    symKey t sym = some k ↔ symMatches t sym ∧ k = sym.st_value := by
  unfold symKey symMatches
  split
  · rename_i hcond
    constructor
    · intro h; cases h
    · rintro ⟨⟨h1, h2⟩, _⟩
      rcases hcond with hc | hc
      · exact absurd h1 hc
      · exact absurd hc h2
  · rename_i hcond
    push_neg at hcond
    constructor
    · intro h
      injection h with h
      exact ⟨⟨hcond.1, hcond.2⟩, h.symm⟩
    · rintro ⟨_, rfl⟩
      rfl

theorem symMatchesB_iff {t : Nat} {sym : Elf64_Sym} :
    symMatchesB t sym = true ↔ symMatches t sym := by
  unfold symMatchesB symMatches
  simp

theorem getLast?_cons_of_some {α : Type} {l : List α} {x a : α} (h : l.getLast? = some x) :
    (a :: l).getLast? = some x := by
  rw [List.getLast?_cons, h]
  rfl

theorem filter_getLast {α : Type} (p : α → Bool) :
    ∀ (l : List α) (idx : Nat) (x : α),
    l.get? idx = some x → p x = true →
    (∀ j y, l.get? j = some y → idx < j → p y = false) →
    (l.filter p).getLast? = some x := by
  intro l
  induction l with
  | nil => intro idx x h; cases h
  | cons z rest ih =>
    intro idx x hget hp hafter
    cases idx with
    | zero =>
      simp only [List.get?] at hget
      cases hget
      have hrest : rest.filter p = [] := by
        rw [List.filter_eq_nil_iff]
        intro y hy
        obtain ⟨j, hj⟩ := List.get?_of_mem hy
        have := hafter (j + 1) y (by simpa using hj) (by omega)
        simp [this]
      rw [List.filter_cons, if_pos hp, hrest]
      rfl
    | succ idx2 =>
      have hget2 : rest.get? idx2 = some x := by simpa using hget
      have hafter2 : ∀ j y, rest.get? j = some y → idx2 < j → p y = false := by
        intro j y hj hlt
        exact hafter (j + 1) y (by simpa using hj) (by omega)
      have hih := ih idx2 x hget2 hp hafter2
      rw [List.filter_cons]
      split
      · exact getLast?_cons_of_some hih
      · exact hih

/-- Claim C1 (spec-modelled search): with the symbol and string tables
loaded, if `find_symbol(a, t)` returns `Ok((name, v))` then `v ≤ a`, some
symbol of the table matches the filter (type `t`, section not `UNDEF`), has
`st_value = v`, and its name extracted from the string table is `name`; no
matching symbol has a value in `(v, a]`; and when no matching symbol has a
value at most `a`, the lookup fails with `NotFound`. -/
theorem claim1_find_symbol_correct (s : PState) (a t : Nat) (tab : List Elf64_Sym)
    (stb : List Nat) (htab : s.back.symtab = some tab) (hstb : s.back.strtab = some stb) :
    (∀ name v s1, find_symbol a t s = .ok (name, v) s1 →
      v ≤ a ∧
      (∃ sym ∈ tab, symMatches t sym ∧ sym.st_value = v ∧
        extract_string stb sym.st_name = .ok name) ∧
      (∀ sym ∈ tab, symMatches t sym → sym.st_value ≤ a → sym.st_value ≤ v)) ∧
    ((∀ sym ∈ tab, symMatches t sym → a < sym.st_value) →
      find_symbol a t s = .err .notFound s) := by
  constructor
  · intro name v s1 h
    unfold find_symbol at h
    rw [ensure_symtab_cached htab] at h
    simp only [Out.bind] at h
    rw [ensure_strtab_cached hstb] at h
    simp only [Out.bind, htab] at h
    cases hsr : search_address_opt_key tab a (symKey t) with
    | none => simp only [hsr] at h; cases h
    | some idx =>
      simp only [hsr] at h
      cases hgi : tab.get? idx with
      | none => simp only [hgi] at h; cases h
      | some sym =>
        simp only [hgi, hstb] at h
        cases hx : extract_string stb sym.st_name with
        | crash => simp only [hx] at h; cases h
        | invalid => simp only [hx] at h; cases h
        | ok nm =>
          simp only [hx] at h
          cases h
          unfold search_address_opt_key at hsr
          cases hsf : searchFrom a (symKey t) tab 0 none with
          | none => rw [hsf] at hsr; cases hsr
          | some pjk =>
            obtain ⟨j2, kk⟩ := pjk
            rw [hsf] at hsr
            simp only [Option.map] at hsr
            injection hsr with hsr
            subst hsr
            obtain ⟨hk_le, hsrc, hmax, _, _⟩ :=
              (searchFrom_spec a (symKey t) tab 0 none (by intro j0 k0 h0; cases h0)).2
                j2 kk hsf
            rcases hsrc with ⟨hb, _⟩ | ⟨off, sym2, hget, hj, hkey⟩
            · cases hb
            · have hoff : off = j2 := by omega
              subst hoff
              rw [hgi] at hget
              injection hget with hget
              subst hget
              obtain ⟨hm, hkv⟩ := symKey_eq_some.mp hkey
              subst hkv
              refine ⟨hk_le, ⟨sym, List.get?_mem hgi, hm, rfl, hx⟩, ?_⟩
              intro sym3 hmem3 hm3 hva3
              exact hmax sym3 hmem3 sym3.st_value (symKey_eq_some.mpr ⟨hm3, rfl⟩) hva3
  · intro hnone
    have hsr : search_address_opt_key tab a (symKey t) = none := by
      unfold search_address_opt_key
      cases hsf : searchFrom a (symKey t) tab 0 none with
      | none => rfl
      | some pjk =>
        obtain ⟨j, kk⟩ := pjk
        exfalso
        obtain ⟨hk_le, hsrc, _, _, _⟩ :=
          (searchFrom_spec a (symKey t) tab 0 none (by intro j0 k0 h0; cases h0)).2 j kk hsf
        rcases hsrc with ⟨hb, _⟩ | ⟨off, sym, hget, hj, hkey⟩
        · cases hb
        · obtain ⟨hm, hkv⟩ := symKey_eq_some.mp hkey
          have := hnone sym (List.get?_mem hget) hm
          omega
    unfold find_symbol
    rw [ensure_symtab_cached htab]
    simp only [Out.bind]
    rw [ensure_strtab_cached hstb]
    simp only [Out.bind, htab, hsr]

/-- Claim C1, witness: on a state with the test tables loaded, no `STT_FUNC`
symbol has value at most 50, and `find_symbol` reports `NotFound`. -/
theorem claim1_witness : find_symbol 50 2 wState = .err .notFound wState :=
  (claim1_find_symbol_correct wState 50 2 wTab testStrtab rfl rfl).2 (by decide)

/-- Claim C8 (spec-modelled search): when the sorted view is the stable sort
of the file-order table and `find_symbol(a, t)` returns `Ok((name, v))`
while several matching symbols share the value `v`, the returned name is the
name of the last matching symbol in file order with that value. -/
theorem claim8_alias_tie (s : PState) (a t : Nat) (orig : List Elf64_Sym) (stb : List Nat)
    (htab : s.back.symtab = some (sortSyms orig)) (hstb : s.back.strtab = some stb)
    (name : List Nat) (v : Nat) (s1 : PState)
    (hrun : find_symbol a t s = .ok (name, v) s1)
    (hsev : 2 ≤ (orig.filter (fun sym => symMatchesB t sym && (sym.st_value == v))).length) :
    ∀ lastSym,
      (orig.filter (fun sym => symMatchesB t sym && (sym.st_value == v))).getLast? =
        some lastSym →
      extract_string stb lastSym.st_name = .ok name ∧ lastSym.st_value = v := by
  unfold find_symbol at hrun
  rw [ensure_symtab_cached htab] at hrun
  simp only [Out.bind] at hrun
  rw [ensure_strtab_cached hstb] at hrun
  simp only [Out.bind, htab] at hrun
  cases hsr : search_address_opt_key (sortSyms orig) a (symKey t) with
  | none => simp only [hsr] at hrun; cases hrun
  | some idx =>
    simp only [hsr] at hrun
    cases hgi : (sortSyms orig).get? idx with
    | none => simp only [hgi] at hrun; cases hrun
    | some sym =>
      simp only [hgi, hstb] at hrun
      cases hx : extract_string stb sym.st_name with
      | crash => simp only [hx] at hrun; cases hrun
      | invalid => simp only [hx] at hrun; cases hrun
      | ok nm =>
        simp only [hx] at hrun
        cases hrun
        unfold search_address_opt_key at hsr
        cases hsf : searchFrom a (symKey t) (sortSyms orig) 0 none with
        | none => rw [hsf] at hsr; cases hsr
        | some pjk =>
          obtain ⟨j2, kk⟩ := pjk
          rw [hsf] at hsr
          simp only [Option.map] at hsr
          injection hsr with hsr
          subst hsr
          obtain ⟨hk_le, hsrc, hmax, _, hafter⟩ :=
            (searchFrom_spec a (symKey t) (sortSyms orig) 0 none
              (by intro j0 k0 h0; cases h0)).2 j2 kk hsf
          rcases hsrc with ⟨hb, _⟩ | ⟨off, sym2, hget, hj, hkey⟩
          · cases hb
          · have hoff : off = j2 := by omega
            subst hoff
            rw [hgi] at hget
            injection hget with hget
            subst hget
            obtain ⟨hm, hkv⟩ := symKey_eq_some.mp hkey
            subst hkv
            have hp : (fun sym3 => symMatchesB t sym3 && (sym3.st_value == sym.st_value))
                sym = true := by
              simp [symMatchesB_iff.mpr hm]
            have hpafter : ∀ j y, (sortSyms orig).get? j = some y → off < j →
                (fun sym3 => symMatchesB t sym3 && (sym3.st_value == sym.st_value)) y
                  = false := by
              intro j y hgy hlt
              cases hpy : (fun sym3 => symMatchesB t sym3 &&
                  (sym3.st_value == sym.st_value)) y
              · rfl
              · exfalso
                simp only [Bool.and_eq_true, beq_iff_eq] at hpy
                have hmy : symMatches t y := symMatchesB_iff.mp hpy.1
                have hvy : y.st_value = sym.st_value := hpy.2
                have := hafter j y hgy (by omega) y.st_value
                  (symKey_eq_some.mpr ⟨hmy, rfl⟩) (by omega)
                omega
            have hlast := filter_getLast _ (sortSyms orig) off sym hgi hp hpafter
            have hstab : (sortSyms orig).filter
                (fun sym3 => symMatchesB t sym3 && (sym3.st_value == sym.st_value)) =
                orig.filter
                  (fun sym3 => symMatchesB t sym3 && (sym3.st_value == sym.st_value)) := by
              refine sortSyms_filter ?_ orig
              intro y z hy hz
              simp only [Bool.and_eq_true, beq_iff_eq] at hy hz
              omega
            intro lastSym hget2
            rw [hstab] at hlast
            rw [hget2] at hlast
            injection hlast with hlast
            subst hlast
            exact ⟨hx, rfl⟩

/-- Claim C8, witness: `foo` and `bar` are both `STT_FUNC` at value 100 in
the test table; `find_symbol 150 FUNC` returns the name of `bar`, the later
of the two in file order. -/
theorem claim8_witness :
    extract_string testStrtab wSymBar.st_name = .ok [98, 97, 114] ∧
    wSymBar.st_value = 100 :=
  claim8_alias_tie wState 150 2 wTab testStrtab (by decide) rfl [98, 97, 114] 100 wState
    (by decide) (by decide) wSymBar (by decide)

theorem get_section_size_cached {s : PState} {e : Elf64_Ehdr} {hs : List Elf64_Shdr}
    (h1 : s.back.ehdr = some e) (h2 : s.back.shdrs = some hs) (i : Nat) :
    get_section_size i s = liftP (sectionSizeB i s.back) s := by
  unfold get_section_size sectionSizeB
  rw [check_section_index_cached h1]
  cases hB : checkIdxB i s.back with
  | crash => simp only [liftP, Out.bind, POut.bind]
  | err e2 => simp only [liftP, Out.bind, POut.bind]
  | ok a =>
    simp only [liftP, Out.bind, POut.bind]
    rw [ensure_shdrs_cached h1 h2]
    simp only [Out.bind, h2]
    cases hg : hs.get? i with
    | none => rfl
    | some sec => rfl

theorem get_section_size_fill {i : Nat} {s : PState} {sz : Nat} {s1 : PState}
    (h : get_section_size i s = .ok sz s1) :
    ∃ e hs, s1.back.ehdr = some e ∧ s1.back.shdrs = some hs ∧ i < e.e_shnum ∧
      sectionSizeB i s1.back = .ok sz := by
  unfold get_section_size at h
  obtain ⟨a, sa, hchk, h⟩ := bind_ok h
  obtain ⟨a2, sb, hsh, h⟩ := bind_ok h
  cases hhs : sb.back.shdrs with
  | none => simp only [hhs] at h; cases h
  | some hs =>
    simp only [hhs] at h
    cases hg : hs.get? i with
    | none => simp only [hg] at h; cases h
    | some sec =>
      simp only [hg] at h
      cases h
      obtain ⟨e, hea, hlt, _⟩ := check_section_index_fill hchk
      have hfr := OnState_of_eq_ok hsh (ensure_shdrs_frame sa)
      have hee : s1.back.ehdr = some e := hfr.2.2.2.2.2.1 e hea
      refine ⟨e, hs, hee, hhs, hlt, ?_⟩
      unfold sectionSizeB checkIdxB numSectionsB
      simp only [hee, hhs, POut.bind]
      rw [if_neg (by omega)]
      simp only [POut.bind, hg]

theorem find_from_cached {s : PState} {e : Elf64_Ehdr} {hs : List Elf64_Shdr} {st : List Nat}
    (h1 : s.back.ehdr = some e) (h2 : s.back.shdrs = some hs) (h3 : s.back.shstrtab = some st)
    (name : List Nat) :
    ∀ fuel i, find_section_from name i fuel s = liftP (findFromB name i fuel s.back) s := by
  intro fuel
  induction fuel with
  | zero => intro i; rfl
  | succ fuel ih =>
    intro i
    unfold find_section_from findFromB
    rw [get_section_name_cached h1 h2 h3]
    cases hB : sectionNameB i s.back with
    | crash => rfl
    | err e2 => rfl
    | ok nm =>
      show (if nm = name then Out.ok i s else find_section_from name (i + 1) fuel s) =
        liftP (if nm = name then POut.ok i else findFromB name (i + 1) fuel s.back) s
      by_cases hnm : nm = name
      · rw [if_pos hnm, if_pos hnm]
        rfl
      · rw [if_neg hnm, if_neg hnm]
        exact ih (i + 1)

theorem find_from_fill {name : List Nat} :
    ∀ {fuel i : Nat} {s : PState} {j : Nat} {s1 : PState},
    find_section_from name i fuel s = .ok j s1 →
    ∃ e hs st, s1.back.ehdr = some e ∧ s1.back.shdrs = some hs ∧
      s1.back.shstrtab = some st ∧ findFromB name i fuel s1.back = .ok j := by
  intro fuel
  induction fuel with
  | zero => intro i s j s1 h; cases h
  | succ fuel ih =>
    intro i s j s1 h
    unfold find_section_from at h
    cases hg : get_section_name i s with
    | crash => simp only [hg] at h; cases h
    | err e2 s2 => simp only [hg] at h; cases h
    | ok nm s2 =>
      simp only [hg] at h
      split at h
      · rename_i hnm
        cases h
        obtain ⟨e, hs, st, he, hhs, hst, hlt, hB⟩ := get_section_name_fill hg
        refine ⟨e, hs, st, he, hhs, hst, ?_⟩
        unfold findFromB
        simp only [hB]
        rw [if_pos hnm]
      · rename_i hnm
        obtain ⟨e, hs, st, he, hhs, hst, hB⟩ := ih h
        obtain ⟨e2, hs2, st2, he2, hhs2, hst2, hlt2, hB2⟩ := get_section_name_fill hg
        have hfr : Frame3 s2 s1 :=
          OnState_of_eq_ok h (find_section_from_frame name fuel (i + 1) s2)
        have hb1 : s1.back.ehdr = some e2 := hfr.2.2.2.2.1 e2 he2
        have hb2 : s1.back.shdrs = some hs2 := hfr.2.2.2.2.2.1 hs2 hhs2
        have hb3 : s1.back.shstrtab = some st2 := hfr.2.2.2.2.2.2 st2 hst2
        refine ⟨e, hs, st, he, hhs, hst, ?_⟩
        unfold findFromB
        rw [sectionNameB_congr i (hb1.trans he2.symm) (hb2.trans hhs2.symm)
          (hb3.trans hst2.symm)]
        simp only [hB2]
        rw [if_neg hnm]
        exact hB

theorem find_section_cached {s : PState} {e : Elf64_Ehdr} {hs : List Elf64_Shdr}
    {st : List Nat} (h1 : s.back.ehdr = some e) (h2 : s.back.shdrs = some hs)
    (h3 : s.back.shstrtab = some st) (name : List Nat) :
    find_section name s = liftP (findSectionB name s.back) s := by
  unfold find_section findSectionB numSectionsB
  rw [get_num_sections_cached h1, h1]
  simp only [Out.bind, POut.bind]
  exact find_from_cached h1 h2 h3 name e.e_shnum 0

theorem find_section_fill {name : List Nat} {s : PState} {i : Nat} {s1 : PState}
    (h : find_section name s = .ok i s1) :
    ∃ e hs st, s1.back.ehdr = some e ∧ s1.back.shdrs = some hs ∧
      s1.back.shstrtab = some st ∧ findSectionB name s1.back = .ok i := by
  unfold find_section at h
  obtain ⟨n, s0, hn, h⟩ := bind_ok h
  obtain ⟨e0, he0, hne, _⟩ := get_num_sections_fill hn
  obtain ⟨e, hs, st, he, hhs, hst, hB⟩ := find_from_fill h
  have hfr : Frame3 s0 s1 := OnState_of_eq_ok h (find_section_from_frame name n 0 s0)
  have he0m : s1.back.ehdr = some e0 := hfr.2.2.2.2.1 e0 he0
  have hee : e = e0 := by
    rw [he0m] at he
    injection he with hv
    exact hv.symm
  subst hee
  refine ⟨e, hs, st, he, hhs, hst, ?_⟩
  unfold findSectionB numSectionsB
  rw [he]
  simp only [POut.bind]
  rw [← hne]
  exact hB

theorem idem_ensure_ehdr {s : PState} {v : Unit} {s1 : PState}
    (h : ensure_ehdr s = .ok v s1) : ensure_ehdr s1 = .ok v s1 := by
  cases v
  have hsome := ensure_ehdr_isSome h
  cases he : s1.back.ehdr with
  | none => rw [he] at hsome; cases hsome
  | some e => exact ensure_ehdr_cached he

theorem idem_ensure_shdrs {s : PState} {v : Unit} {s1 : PState}
    (h : ensure_shdrs s = .ok v s1) : ensure_shdrs s1 = .ok v s1 := by
  cases v
  obtain ⟨h1, h2⟩ := ensure_shdrs_isSome h
  cases he : s1.back.ehdr with
  | none => rw [he] at h1; cases h1
  | some e =>
    cases hh : s1.back.shdrs with
    | none => rw [hh] at h2; cases h2
    | some hs => exact ensure_shdrs_cached he hh

theorem idem_ensure_shstrtab {s : PState} {v : Unit} {s1 : PState}
    (h : ensure_shstrtab s = .ok v s1) : ensure_shstrtab s1 = .ok v s1 := by
  cases v
  obtain ⟨h1, h2, h3⟩ := ensure_shstrtab_isSome h
  cases he : s1.back.ehdr with
  | none => rw [he] at h1; cases h1
  | some e =>
    cases hh : s1.back.shdrs with
    | none => rw [hh] at h2; cases h2
    | some hs =>
      cases hst : s1.back.shstrtab with
      | none => rw [hst] at h3; cases h3
      | some st => exact ensure_shstrtab_cached he hh hst

theorem idem_ensure_symtab {s : PState} {v : Unit} {s1 : PState}
    (h : ensure_symtab s = .ok v s1) : ensure_symtab s1 = .ok v s1 := by
  cases v
  have hsome := ensure_symtab_isSome h
  cases he : s1.back.symtab with
  | none => rw [he] at hsome; cases hsome
  | some tab => exact ensure_symtab_cached he

theorem idem_ensure_strtab {s : PState} {v : Unit} {s1 : PState}
    (h : ensure_strtab s = .ok v s1) : ensure_strtab s1 = .ok v s1 := by
  cases v
  have hsome := ensure_strtab_isSome h
  cases he : s1.back.strtab with
  | none => rw [he] at hsome; cases hsome
  | some stb => exact ensure_strtab_cached he

theorem idem_get_num_sections {s : PState} {n : Nat} {s1 : PState}
    (h : get_num_sections s = .ok n s1) : get_num_sections s1 = .ok n s1 := by
  obtain ⟨e, he, hne, _⟩ := get_num_sections_fill h
  subst hne
  exact get_num_sections_cached he

theorem idem_get_section_size {i : Nat} {s : PState} {sz : Nat} {s1 : PState}
    (h : get_section_size i s = .ok sz s1) : get_section_size i s1 = .ok sz s1 := by
  obtain ⟨e, hs, he, hhs, hlt, hB⟩ := get_section_size_fill h
  rw [get_section_size_cached he hhs i, hB]
  rfl

theorem idem_get_section_name {i : Nat} {s : PState} {nm : List Nat} {s1 : PState}
    (h : get_section_name i s = .ok nm s1) : get_section_name i s1 = .ok nm s1 := by
  obtain ⟨e, hs, st, he, hhs, hst, hlt, hB⟩ := get_section_name_fill h
  rw [get_section_name_cached he hhs hst i, hB]
  rfl

theorem idem_find_section {name : List Nat} {s : PState} {i : Nat} {s1 : PState}
    (h : find_section name s = .ok i s1) : find_section name s1 = .ok i s1 := by
  obtain ⟨e, hs, st, he, hhs, hst, hB⟩ := find_section_fill h
  rw [find_section_cached he hhs hst name, hB]
  rfl

theorem idem_get_num_symbols {s : PState} {n : Nat} {s1 : PState}
    (h : get_num_symbols s = .ok n s1) : get_num_symbols s1 = .ok n s1 := by
  unfold get_num_symbols at h ⊢
  obtain ⟨a, sa, hens, h⟩ := bind_ok h
  cases htab : sa.back.symtab with
  | none => simp only [htab] at h; cases h
  | some tab =>
    simp only [htab] at h
    cases h
    cases a
    rw [ensure_symtab_cached htab]
    simp only [Out.bind, htab]

theorem idem_get_symbol {idx : Nat} {s : PState} {sym : Elf64_Sym} {s1 : PState}
    (h : get_symbol idx s = .ok sym s1) : get_symbol idx s1 = .ok sym s1 := by
  unfold get_symbol at h ⊢
  obtain ⟨a, sa, hens, h⟩ := bind_ok h
  cases htab : sa.back.symtab with
  | none => simp only [htab] at h; cases h
  | some tab =>
    simp only [htab] at h
    cases hget : tab.get? idx with
    | none => simp only [hget] at h; cases h
    | some sym2 =>
      simp only [hget] at h
      cases h
      cases a
      rw [ensure_symtab_cached htab]
      simp only [Out.bind, htab, hget]

theorem idem_get_symbol_origin {idx : Nat} {s : PState} {sym : Elf64_Sym} {s1 : PState}
    (h : get_symbol_origin idx s = .ok sym s1) : get_symbol_origin idx s1 = .ok sym s1 := by
  unfold get_symbol_origin at h ⊢
  obtain ⟨a, sa, hens, h⟩ := bind_ok h
  have hsome := ensure_symtab_isSome hens
  cases htb : sa.back.symtab with
  | none => rw [htb] at hsome; cases hsome
  | some tab2 =>
    cases horig : sa.back.symtab_origin with
    | none => simp only [horig] at h; cases h
    | some orig =>
      simp only [horig] at h
      cases hget : orig.get? idx with
      | none => simp only [hget] at h; cases h
      | some sym2 =>
        simp only [hget] at h
        cases h
        cases a
        rw [ensure_symtab_cached htb]
        simp only [Out.bind, horig, hget]

theorem idem_get_symbol_name {idx : Nat} {s : PState} {nm : List Nat} {s1 : PState}
    (h : get_symbol_name idx s = .ok nm s1) : get_symbol_name idx s1 = .ok nm s1 := by
  unfold get_symbol_name at h ⊢
  obtain ⟨sym2, sa, hgs, h⟩ := bind_ok h
  cases hstb : sa.back.strtab with
  | none => simp only [hstb] at h; cases h
  | some stb =>
    simp only [hstb] at h
    cases hx : extract_string stb sym2.st_name with
    | crash => simp only [hx] at h; cases h
    | invalid => simp only [hx] at h; cases h
    | ok nm2 =>
      simp only [hx] at h
      cases h
      rw [idem_get_symbol hgs]
      simp only [Out.bind, hstb, hx]

theorem idem_find_symbol {a t : Nat} {s : PState} {r : List Nat × Nat} {s1 : PState}
    (h : find_symbol a t s = .ok r s1) : find_symbol a t s1 = .ok r s1 := by
  unfold find_symbol at h ⊢
  obtain ⟨u1, sa, hens, h⟩ := bind_ok h
  obtain ⟨u2, sb, hstr, h⟩ := bind_ok h
  cases htab : sb.back.symtab with
  | none => simp only [htab] at h; cases h
  | some tab =>
    simp only [htab] at h
    cases hsr : search_address_opt_key tab a (symKey t) with
    | none => simp only [hsr] at h; cases h
    | some idx =>
      simp only [hsr] at h
      cases hgi : tab.get? idx with
      | none => simp only [hgi] at h; cases h
      | some sym =>
        simp only [hgi] at h
        cases hstb : sb.back.strtab with
        | none => simp only [hstb] at h; cases h
        | some stb =>
          simp only [hstb] at h
          cases hx : extract_string stb sym.st_name with
          | crash => simp only [hx] at h; cases h
          | invalid => simp only [hx] at h; cases h
          | ok nm =>
            simp only [hx] at h
            cases h
            rw [ensure_symtab_cached htab]
            simp only [Out.bind]
            rw [ensure_strtab_cached hstb]
            simp only [Out.bind, htab, hsr, hgi, hstb, hx]

theorem Back.mono_trans {b b2 b3 : Back} (h : Back.mono b b2) (h2 : Back.mono b2 b3) :
    Back.mono b b3 := by
  obtain ⟨a1, a2, a3, a4, a5, a6⟩ := h
  obtain ⟨c1, c2, c3, c4, c5, c6⟩ := h2
  exact ⟨fun x hx => c1 x (a1 x hx), fun x hx => c2 x (a2 x hx), fun x hx => c3 x (a3 x hx),
    fun x hx => c4 x (a4 x hx), fun x hx => c5 x (a5 x hx), fun x hx => c6 x (a6 x hx)⟩

theorem mono_of_frame2 {s s1 : PState} (h : Frame2 s s1) : Back.mono s.back s1.back := by
  obtain ⟨h1, h2, h3, h4, h5, h6, h7⟩ := h
  exact ⟨h6, h7, fun x hx => by rw [← h1] at hx; exact hx, fun x hx => by rw [← h2] at hx; exact hx,
    fun x hx => by rw [← h3] at hx; exact hx, fun x hx => by rw [← h4] at hx; exact hx⟩

theorem mono_of_frame3 {s s1 : PState} (h : Frame3 s s1) : Back.mono s.back s1.back := by
  obtain ⟨h1, h2, h3, h4, h5, h6, h7⟩ := h
  exact ⟨h5, h6, h7, fun x hx => by rw [← h1] at hx; exact hx,
    fun x hx => by rw [← h2] at hx; exact hx, fun x hx => by rw [← h3] at hx; exact hx⟩

theorem mono_ensure_symtab (s : PState) (hin : originInv s) :
    OnState (ensure_symtab s) (fun s2 => Back.mono s.back s2.back) := by
  refine OnState_weaken (ensure_symtab_frame s) ?_
  intro s2 h
  obtain ⟨hstr, hfile, heh, hsh, hss, hsymid⟩ := h
  refine ⟨heh, hsh, hss, ?_, ?_, ?_⟩
  · intro x hx
    rw [hsymid x hx]
    exact hx
  · intro x hx
    cases hzz : s.back.symtab with
    | some tb =>
      rw [hsymid tb hzz]
      exact hx
    | none =>
      rw [hin hzz] at hx
      cases hx
  · intro x hx
    rw [hstr]
    exact hx

theorem mono_ensure_strtab (s : PState) :
    OnState (ensure_strtab s) (fun s2 => Back.mono s.back s2.back) := by
  refine OnState_weaken (ensure_strtab_frame s) ?_
  intro s2 h
  obtain ⟨hsym, horg, hfile, heh, hsh, hss, hstrid⟩ := h
  refine ⟨heh, hsh, hss, fun x hx => by rw [hsym]; exact hx,
    fun x hx => by rw [horg]; exact hx, fun x hx => by rw [hstrid x hx]; exact hx⟩

theorem mono_get_num_symbols (s : PState) (hin : originInv s) :
    OnState (get_num_symbols s) (fun s2 => Back.mono s.back s2.back) := by
  unfold get_num_symbols
  refine OnState_bind (mono_ensure_symtab s hin) ?_ ?_
  · intro a s1 _ hP
    split
    · exact trivial
    · exact hP
  · intro e s1 _ hP
    exact hP

theorem mono_get_symbol (idx : Nat) (s : PState) (hin : originInv s) :
    OnState (get_symbol idx s) (fun s2 => Back.mono s.back s2.back) := by
  unfold get_symbol
  refine OnState_bind (mono_ensure_symtab s hin) ?_ ?_
  · intro a s1 _ hP
    split
    · exact trivial
    · split
      · exact trivial
      · exact hP
  · intro e s1 _ hP
    exact hP

theorem mono_get_symbol_origin (idx : Nat) (s : PState) (hin : originInv s) :
    OnState (get_symbol_origin idx s) (fun s2 => Back.mono s.back s2.back) := by
  unfold get_symbol_origin
  refine OnState_bind (mono_ensure_symtab s hin) ?_ ?_
  · intro a s1 _ hP
    split
    · exact trivial
    · split
      · exact trivial
      · exact hP
  · intro e s1 _ hP
    exact hP

theorem mono_get_symbol_name (idx : Nat) (s : PState) (hin : originInv s) :
    OnState (get_symbol_name idx s) (fun s2 => Back.mono s.back s2.back) := by
  unfold get_symbol_name
  refine OnState_bind (mono_get_symbol idx s hin) ?_ ?_
  · intro sym s1 _ hP
    split
    · exact trivial
    · split
      · exact trivial
      · exact hP
      · exact hP
  · intro e s1 _ hP
    exact hP

theorem mono_find_symbol (a t : Nat) (s : PState) (hin : originInv s) :
    OnState (find_symbol a t s) (fun s2 => Back.mono s.back s2.back) := by
  unfold find_symbol
  refine OnState_bind (mono_ensure_symtab s hin) ?_ ?_
  · intro u1 s1 _ hP
    refine OnState_bind (mono_ensure_strtab s1) ?_ ?_
    · intro u2 s2 _ hQ
      have hPQ : Back.mono s.back s2.back := Back.mono_trans hP hQ
      repeat' split
      all_goals first | exact trivial | exact hPQ
    · intro e2 s2 _ hQ
      exact Back.mono_trans hP hQ
  · intro e s1 _ hP
    exact hP

/-- Claim C9 (corrected): every cache fill and every cache-backed lookup is
idempotent on success - an immediately repeated call returns the same value
and leaves the state (cursor, read count, caches) exactly as it was, so the
second call performs no file reads - and every operation only adds to the
caches: a populated cache never reverts or changes content (for the
symbol-table operations, under the invariant that the file-order view is
only populated together with the sorted view, which holds for every state
reachable from `openState`).  Raw section reads (`read_section_raw`) are
deliberately uncached and re-read the file on every call, and a failed fill
retries the read: both are counterexamples to the claim as stated. -/
theorem claim9_idempotence_mono :
    ((∀ s v s1, ensure_ehdr s = .ok v s1 → ensure_ehdr s1 = .ok v s1) ∧
     (∀ s v s1, ensure_shdrs s = .ok v s1 → ensure_shdrs s1 = .ok v s1) ∧
     (∀ s v s1, ensure_shstrtab s = .ok v s1 → ensure_shstrtab s1 = .ok v s1) ∧
     (∀ s v s1, ensure_symtab s = .ok v s1 → ensure_symtab s1 = .ok v s1) ∧
     (∀ s v s1, ensure_strtab s = .ok v s1 → ensure_strtab s1 = .ok v s1) ∧
     (∀ s n s1, get_num_sections s = .ok n s1 → get_num_sections s1 = .ok n s1) ∧
     (∀ i s sz s1, get_section_size i s = .ok sz s1 → get_section_size i s1 = .ok sz s1) ∧
     (∀ i s nm s1, get_section_name i s = .ok nm s1 → get_section_name i s1 = .ok nm s1) ∧
     (∀ name s i s1, find_section name s = .ok i s1 → find_section name s1 = .ok i s1) ∧
     (∀ s n s1, get_num_symbols s = .ok n s1 → get_num_symbols s1 = .ok n s1) ∧
     (∀ idx s sym s1, get_symbol idx s = .ok sym s1 → get_symbol idx s1 = .ok sym s1) ∧
     (∀ idx s sym s1, get_symbol_origin idx s = .ok sym s1 →
       get_symbol_origin idx s1 = .ok sym s1) ∧
     (∀ idx s nm s1, get_symbol_name idx s = .ok nm s1 → get_symbol_name idx s1 = .ok nm s1) ∧
     (∀ a t s r s1, find_symbol a t s = .ok r s1 → find_symbol a t s1 = .ok r s1)) ∧
    ((∀ s, OnState (ensure_ehdr s) (fun s2 => Back.mono s.back s2.back)) ∧
     (∀ s, OnState (ensure_shdrs s) (fun s2 => Back.mono s.back s2.back)) ∧
     (∀ s, OnState (ensure_shstrtab s) (fun s2 => Back.mono s.back s2.back)) ∧
     (∀ s, originInv s → OnState (ensure_symtab s) (fun s2 => Back.mono s.back s2.back)) ∧
     (∀ s, OnState (ensure_strtab s) (fun s2 => Back.mono s.back s2.back)) ∧
     (∀ s, OnState (get_num_sections s) (fun s2 => Back.mono s.back s2.back)) ∧
     (∀ i s, OnState (get_section_size i s) (fun s2 => Back.mono s.back s2.back)) ∧
     (∀ i s, OnState (get_section_name i s) (fun s2 => Back.mono s.back s2.back)) ∧
     (∀ i s, OnState (read_section_raw i s) (fun s2 => Back.mono s.back s2.back)) ∧
     (∀ i s, OnState (section_seek i s) (fun s2 => Back.mono s.back s2.back)) ∧
     (∀ i o s, OnState (section_offset_seek i o s) (fun s2 => Back.mono s.back s2.back)) ∧
     (∀ name s, OnState (find_section name s) (fun s2 => Back.mono s.back s2.back)) ∧
     (∀ s, originInv s → OnState (get_num_symbols s) (fun s2 => Back.mono s.back s2.back)) ∧
     (∀ idx s, originInv s → OnState (get_symbol idx s) (fun s2 => Back.mono s.back s2.back)) ∧
     (∀ idx s, originInv s →
       OnState (get_symbol_origin idx s) (fun s2 => Back.mono s.back s2.back)) ∧
     (∀ idx s, originInv s →
       OnState (get_symbol_name idx s) (fun s2 => Back.mono s.back s2.back)) ∧
     (∀ a t s, originInv s → OnState (find_symbol a t s) (fun s2 => Back.mono s.back s2.back))) := by
  refine ⟨⟨?_, ?_, ?_, ?_, ?_, ?_, ?_, ?_, ?_, ?_, ?_, ?_, ?_, ?_⟩,
    ⟨?_, ?_, ?_, ?_, ?_, ?_, ?_, ?_, ?_, ?_, ?_, ?_, ?_, ?_, ?_, ?_, ?_⟩⟩
  · exact fun s v s1 h => idem_ensure_ehdr h
  · exact fun s v s1 h => idem_ensure_shdrs h
  · exact fun s v s1 h => idem_ensure_shstrtab h
  · exact fun s v s1 h => idem_ensure_symtab h
  · exact fun s v s1 h => idem_ensure_strtab h
  · exact fun s n s1 h => idem_get_num_sections h
  · exact fun i s sz s1 h => idem_get_section_size h
  · exact fun i s nm s1 h => idem_get_section_name h
  · exact fun name s i s1 h => idem_find_section h
  · exact fun s n s1 h => idem_get_num_symbols h
  · exact fun idx s sym s1 h => idem_get_symbol h
  · exact fun idx s sym s1 h => idem_get_symbol_origin h
  · exact fun idx s nm s1 h => idem_get_symbol_name h
  · exact fun a t s r s1 h => idem_find_symbol h
  · exact fun s => OnState_weaken (ensure_ehdr_frame2 s) (fun s2 h => mono_of_frame2 h)
  · exact fun s => OnState_weaken (ensure_shdrs_frame s) (fun s2 h => mono_of_frame2 h)
  · exact fun s => OnState_weaken (ensure_shstrtab_frame s) (fun s2 h => mono_of_frame3 h)
  · exact fun s hin => mono_ensure_symtab s hin
  · exact fun s => mono_ensure_strtab s
  · exact fun s => OnState_weaken (get_num_sections_frame s) (fun s2 h => mono_of_frame2 h)
  · exact fun i s => OnState_weaken (get_section_size_frame i s) (fun s2 h => mono_of_frame2 h)
  · exact fun i s => OnState_weaken (get_section_name_frame i s) (fun s2 h => mono_of_frame3 h)
  · exact fun i s => OnState_weaken (read_section_raw_frame i s) (fun s2 h => mono_of_frame2 h)
  · exact fun i s => OnState_weaken (section_seek_frame i s) (fun s2 h => mono_of_frame2 h)
  · exact fun i o s => OnState_weaken (section_offset_seek_frame i o s)
      (fun s2 h => mono_of_frame2 h)
  · exact fun name s => OnState_weaken (find_section_frame name s) (fun s2 h => mono_of_frame3 h)
  · exact fun s hin => mono_get_num_symbols s hin
  · exact fun idx s hin => mono_get_symbol idx s hin
  · exact fun idx s hin => mono_get_symbol_origin idx s hin
  · exact fun idx s hin => mono_get_symbol_name idx s hin
  · exact fun a t s hin => mono_find_symbol a t s hin

/-- Claim C9, counterexample to the claim as stated: `read_section_raw` is a
lookup operation that succeeds twice with identical results, yet its second
call issues another file read (the read counter grows); and a failed
`ensure_ehdr` on an empty file retries the read on every call. -/
theorem claim9_counterexample :
    read_section_raw 0 goodS0 = .ok testShstrtab goodRawS ∧
    read_section_raw 0 goodRawS = .ok testShstrtab goodRawS2x ∧
    goodRawS.reads < goodRawS2x.reads ∧
    ensure_ehdr emptyS0 = .err .ioError emptyS1 ∧
    ensure_ehdr emptyS1 = .err .ioError emptyS2 ∧
    emptyS1.reads = 1 ∧ emptyS2.reads = 2 := by
  refine ⟨by decide, by decide, by decide, by decide, by decide, by decide, by decide⟩

/-- Claim C9, witness: a successful header fill and a successful symbol
lookup on the test image are idempotent, leaving the state untouched. -/
theorem claim9_witness :
    ensure_ehdr goodEhdrS = .ok () goodEhdrS ∧
    find_symbol 150 2 goodFindS = .ok ([98, 97, 114], 100) goodFindS := by
  obtain ⟨⟨i1, _, _, _, _, _, _, _, _, _, _, _, _, i14⟩, _⟩ := claim9_idempotence_mono
  exact ⟨i1 goodS0 () goodEhdrS (by decide),
    i14 150 2 goodS0 ([98, 97, 114], 100) goodFindS (by decide)⟩

end Blaze

